import Mathlib

/-!
Verification of the go-spring `spring-core` bean resolver, condition engine,
layered configuration and server readiness barrier.

The definitions below are a shallow embedding of the Go sources:

* `gs/internal/gs_bean/bean.go` — `BeanStatus`, bean metadata;
* the `resolving` package — `Resolving.Refresh`, `resolveBeans`,
  `ConditionContext.resolveBean`, `ConditionContext.Find`, `isBeanMatched`,
  `Resolving.scanConfiguration`, `Resolving.checkDuplicateBeans`;
* the `gs` package — the `OnOnce` memoizing condition wrapper;
* `gs/internal/gs_conf/conf.go` — `AppConfig.Refresh`, `merge`, `getAppFiles`;
* `gs/internal/gs_app/app.go` and the `ReadySignalImpl` barrier — modelled as
  an interleaving transition system.

Go `reflect.Type` values are abstracted as natural numbers; the fields of a
bean that the resolver consults (name, type, exported interfaces, conditions,
status, configuration marker, file/line) are carried verbatim.  The mutually
recursive resolution (`resolveBean` → condition `Matches` → `Find` →
`resolveBean`) is embedded with an explicit fuel parameter; fuel sufficiency
is proved below, so the fuelled functions describe the Go recursion exactly.
-/

namespace SpringCore

/-- BeanStatus mirrors `gs_bean.BeanStatus`: `StatusDeleted = -1`,
then `StatusDefault = 1`, `StatusResolving = 2`, … (the Go `const` block uses
`iota` starting at 1 for `StatusDefault`). -/
inductive BeanStatus where
  | StatusDeleted
  | StatusDefault
  | StatusResolving
  | StatusResolved
  | StatusCreating
  | StatusCreated
  | StatusWired
deriving DecidableEq, Repr

/-- Numeric value of a status, as in the Go `const` block. -/
def BeanStatus.toInt : BeanStatus → Int
  | .StatusDeleted => -1
  | .StatusDefault => 1
  | .StatusResolving => 2
  | .StatusResolved => 3
  | .StatusCreating => 4
  | .StatusCreated => 5
  | .StatusWired => 6

/-- The Go comparison `status1 >= status2` on `BeanStatus` values. -/
def BeanStatus.ge (a b : BeanStatus) : Bool := decide (b.toInt ≤ a.toInt)

/-- Errors produced by the container.  `util.FormatError(err, msg)` wraps an
inner error with an outer message; `util.FormatError(nil, msg)` produces a
plain message. -/
inductive GoErr where
  | msg (s : String)
  | wrap (outer : String) (inner : GoErr)
deriving DecidableEq, Repr

/-- Flatten an error chain to the single string the caller observes
(outer-to-inner messages joined by a separator, as in the repository's
error-wrapping helpers and its tests, e.g.
"resolve bean error: condition OnFunc(...) matches error: condition error"). -/
def GoErr.flatten : GoErr → String
  | .msg s => s
  | .wrap outer inner => outer ++ ": " ++ inner.flatten

/-- Decidable substring test (used to state that an error message does or
does not mention a given bean). -/
def containsSub (hay needle : String) : Bool :=
  (hay.toList.tails).any (fun t => needle.toList.isPrefixOf t)

/-- Conditions as the resolver sees them.  `res descr r` is a condition with
a fixed outcome (an `OnFunc`-style predicate whose evaluation does not consult
the bean graph); `descr` is its printed description.  `onBeanID t name` is
`gs_cond.OnBeanID` — modelled from the spec (the `gs_cond` package is not part
of the sources here): it matches iff `ConditionContext.Find` on the given
(type, name) selector returns at least one bean, and an evaluation error of a
condition is wrapped as "condition DESCR matches error" (the format the
repository's own tests assert). -/
inductive Cond where
  | res (descr : String) (r : Except String Bool)
  | onBeanID (typ : Option Nat) (name : String)
deriving Repr

deriving instance DecidableEq for Except

deriving instance DecidableEq for Cond

/-- Configuration mirrors `gs_bean.Configuration` (include/exclude regex
patterns for configuration-class method scanning). -/
structure Configuration where
  Includes : List String
  Excludes : List String
deriving DecidableEq, Repr

/-- The slice of `gs_bean.BeanDefinition` that the resolver consults.
Go `reflect.Type` values are abstracted as `Nat`. -/
structure Bean where
  name : String
  typ : Nat
  exports : List Nat
  conds : List Cond
  status : BeanStatus
  configuration : Option Configuration
  fileLine : String
deriving DecidableEq, Repr

/-- BeanDefinition.String(): "name=NAME FILELINE". -/
def Bean.descr (b : Bean) : String := "name=" ++ b.name ++ " " ++ b.fileLine

/-- A container's bean list (`Resolving.beans`); beans are addressed by
position, playing the role of the Go pointer identity. -/
abbrev Ctr := List Bean

/-- Status of the bean at index `i` (if any). -/
def statusAt (c : Ctr) (i : Nat) : Option BeanStatus := (c.get? i).map Bean.status

/-- SetStatus on the bean at index `i` (a no-op out of range). -/
def setStatus (c : Ctr) (i : Nat) (s : BeanStatus) : Ctr :=
  match c.get? i with
  | some b => c.set i { b with status := s }
  | none => c

/-- isBeanMatched from the `resolving` package: the name selector must agree
when nonempty, and the type selector (when present) must be the bean's own
type or one of its exported interface types. -/
def isBeanMatched (t : Option Nat) (s : String) (b : Bean) : Bool :=
  if s != "" && s != b.name then false
  else
    match t with
    | none => true
    | some ty => if ty != b.typ && !(b.exports.contains ty) then false else true

mutual

/-- ConditionContext.Find's loop body over the remaining bean indices `idxs`,
accumulating matched indices in `acc` (in reverse).  A bean whose status is
`StatusResolving` or `StatusDeleted` is skipped; a matched bean is resolved
first via `rb` and then skipped if that left it deleted. -/
def findAuxFn (rb : Ctr → Nat → Option (Except GoErr Ctr)) :
    Ctr → Option Nat → String → List Nat → List Nat →
    Option (Except GoErr (List Nat × Ctr))
  | c, _, _, [], acc => some (.ok (acc.reverse, c))
  | c, t, n, j :: rest, acc =>
    match c.get? j with
    | none => findAuxFn rb c t n rest acc
    | some b =>
      if b.status == .StatusResolving || b.status == .StatusDeleted then
        findAuxFn rb c t n rest acc
      else if !isBeanMatched t n b then
        findAuxFn rb c t n rest acc
      else
        match rb c j with
        | none => none
        | some (.error e) => some (.error e)
        | some (.ok c2) =>
          match c2.get? j with
          | none => findAuxFn rb c2 t n rest acc
          | some b2 =>
            if b2.status == .StatusDeleted then findAuxFn rb c2 t n rest acc
            else findAuxFn rb c2 t n rest (j :: acc)

end

/-- Condition.Matches against the container, resolving referenced beans with
`rb`.  For `onBeanID`, the match succeeds iff `Find` returns at least one
bean (spec: `OnBean`-style conditions require ≥ 1 match). -/
def condMatchesFn (rb : Ctr → Nat → Option (Except GoErr Ctr)) :
    Ctr → Cond → Option (Except GoErr (Bool × Ctr))
  | c, .res descr r =>
    match r with
    | .ok b => some (.ok (b, c))
    | .error m =>
      some (.error (.wrap ("condition " ++ descr ++ " matches error") (.msg m)))
  | c, .onBeanID t n =>
    match findAuxFn rb c t n (List.range c.length) [] with
    | none => none
    | some (.error e) => some (.error e)
    | some (.ok (found, c2)) => some (.ok (!found.isEmpty, c2))

/-- The loop over a bean's conditions in `ConditionContext.resolveBean`:
stops at the first `false` (bean to be deleted) or the first error. -/
def evalCondsFn (rb : Ctr → Nat → Option (Except GoErr Ctr)) :
    Ctr → List Cond → Option (Except GoErr (Bool × Ctr))
  | c, [] => some (.ok (true, c))
  | c, cond :: rest =>
    match condMatchesFn rb c cond with
    | none => none
    | some (.error e) => some (.error e)
    | some (.ok (false, c2)) => some (.ok (false, c2))
    | some (.ok (true, c2)) => evalCondsFn rb c2 rest

/-- ConditionContext.resolveBean, fuelled: returns `none` when the fuel is
exhausted (fuel sufficiency is proved below).  A bean whose status is already
`≥ StatusResolving` is left untouched; otherwise it is marked
`StatusResolving`, its conditions are evaluated (each possibly triggering
recursive resolution through `Find`), and it ends `StatusDeleted` (some
condition was false) or `StatusResolved` (all conditions true). -/
def resolveBean : Nat → Ctr → Nat → Option (Except GoErr Ctr)
  | 0, _, _ => none
  | fuel + 1, c, i =>
    match c.get? i with
    | none => some (.ok c)
    | some b =>
      if b.status.ge .StatusResolving then some (.ok c)
      else
        match evalCondsFn (resolveBean fuel)
            (setStatus c i .StatusResolving) b.conds with
        | none => none
        | some (.error e) => some (.error e)
        | some (.ok (false, c2)) => some (.ok (setStatus c2 i .StatusDeleted))
        | some (.ok (true, c2)) => some (.ok (setStatus c2 i .StatusResolved))

/-- ConditionContext.Find: all beans matching the selector, resolving each
candidate on demand. -/
def Find (fuel : Nat) (c : Ctr) (t : Option Nat) (n : String) :
    Option (Except GoErr (List Nat × Ctr)) :=
  findAuxFn (resolveBean fuel) c t n (List.range c.length) []

/-- Condition evaluation at a given fuel. -/
def condMatches (fuel : Nat) (c : Ctr) (cond : Cond) :
    Option (Except GoErr (Bool × Ctr)) :=
  condMatchesFn (resolveBean fuel) c cond

/-- Resolving.resolveBeans' loop over the bean indices: each bean is resolved
in turn, and an error is wrapped as "resolve bean error". -/
def resolveBeansAux (fuel : Nat) : Ctr → List Nat → Option (Except GoErr Ctr)
  | c, [] => some (.ok c)
  | c, i :: rest =>
    match resolveBean fuel c i with
    | none => none
    | some (.error e) => some (.error (.wrap "resolve bean error" e))
    | some (.ok c2) => resolveBeansAux fuel c2 rest

/-- Resolving.resolveBeans: resolve every bean of the container. -/
def resolveBeans (fuel : Nat) (c : Ctr) : Option (Except GoErr Ctr) :=
  resolveBeansAux fuel c (List.range c.length)

/-- Shape of a bean: everything except its status. -/
def Bean.shape (b : Bean) : Bean := { b with status := .StatusDefault }

/-- Shape of the bean at index `j`. -/
def shapeAt (c : Ctr) (j : Nat) : Option Bean := (c.get? j).map Bean.shape

/-- Number of beans still at `StatusDefault` (the measure that bounds the
depth of recursive resolution). -/
def dflt (c : Ctr) : Nat :=
  (List.range c.length).countP (fun j => statusAt c j == some .StatusDefault)

/-- Invariant relating the container before and after any successful
condition-evaluation step (`Find`, `Matches`, the condition loop): only
statuses change, statuses at or above `StatusResolved` are frozen, the set of
`StatusResolving` beans is unchanged, deleted beans stay deleted, and any
changed status was set to `StatusResolving`, `StatusResolved` or
`StatusDeleted`. -/
structure InnerInv (c c' : Ctr) : Prop where
  len : c'.length = c.length
  shape : ∀ j, shapeAt c' j = shapeAt c j
  frozenHi : ∀ j s, statusAt c j = some s → s.ge .StatusResolved = true →
    statusAt c' j = some s
  resolvingKeep : ∀ j, statusAt c j = some .StatusResolving →
    statusAt c' j = some .StatusResolving
  resolvingNew : ∀ j, statusAt c' j = some .StatusResolving →
    statusAt c j = some .StatusResolving
  deletedKeep : ∀ j, statusAt c j = some .StatusDeleted →
    statusAt c' j = some .StatusDeleted
  upward : ∀ j, statusAt c' j = statusAt c j ∨
    statusAt c' j = some .StatusResolving ∨
    statusAt c' j = some .StatusResolved ∨
    statusAt c' j = some .StatusDeleted

/-- Invariant of a successful `resolveBean` call on target `i`: as `InnerInv`
except that a deleted target may be re-resolved, plus a description of the
target's final status. -/
structure RBInv (i : Nat) (c c' : Ctr) : Prop where
  len : c'.length = c.length
  shape : ∀ j, shapeAt c' j = shapeAt c j
  frozenHi : ∀ j s, statusAt c j = some s → s.ge .StatusResolved = true →
    statusAt c' j = some s
  resolvingKeep : ∀ j, statusAt c j = some .StatusResolving →
    statusAt c' j = some .StatusResolving
  resolvingNew : ∀ j, statusAt c' j = some .StatusResolving →
    statusAt c j = some .StatusResolving
  deletedKeep : ∀ j, j ≠ i → statusAt c j = some .StatusDeleted →
    statusAt c' j = some .StatusDeleted
  upward : ∀ j, statusAt c' j = statusAt c j ∨
    statusAt c' j = some .StatusResolving ∨
    statusAt c' j = some .StatusResolved ∨
    statusAt c' j = some .StatusDeleted
  target : (∃ b, c.get? i = some b ∧ b.status.ge .StatusResolving = true ∧ c' = c) ∨
    (c.get? i = none ∧ c' = c) ∨
    statusAt c' i = some .StatusResolved ∨ statusAt c' i = some .StatusDeleted

/-- Specification of the recursive-resolution callback passed to the generic
loop lemmas. -/
def RBSpec (rb : Ctr → Nat → Option (Except GoErr Ctr)) : Prop :=
  ∀ c i c', rb c i = some (.ok c') → RBInv i c c'

/-- No bean of the container is currently `StatusResolving` (true between any
two top-level resolution steps). -/
def NoResolving (c : Ctr) : Prop :=
  ∀ j, statusAt c j ≠ some .StatusResolving

/-- All statuses lie in the range the resolution phase can produce. -/
def GoodRange (c : Ctr) : Prop :=
  ∀ j b, c.get? j = some b →
    b.status = .StatusDefault ∨ b.status = .StatusResolving ∨
    b.status = .StatusResolved ∨ b.status = .StatusDeleted

/-- The bean at index `i` has reached one of the two terminal resolution
statuses. -/
def FinalOK (c : Ctr) (i : Nat) : Prop :=
  statusAt c i = some .StatusResolved ∨ statusAt c i = some .StatusDeleted

/-- Every bean of the container is at `StatusDefault` (the state of a
container whose beans were only registered, never refreshed). -/
def AllDefault (c : Ctr) : Prop :=
  ∀ j b, c.get? j = some b → b.status = .StatusDefault

/-- Some bean of the container is matched by the selector `(t, n)` and has
reached at least `StatusResolved` — it is alive and visible to `Find`. -/
def MatcherAt (c : Ctr) (t : Option Nat) (n : String) : Prop :=
  ∃ j b, c.get? j = some b ∧ isBeanMatched t n b = true ∧
    b.status.ge .StatusResolved = true

/-- The bean at index `i` carries the condition `OnBeanID t n`. -/
def CondAt (c : Ctr) (i : Nat) (t : Option Nat) (n : String) : Prop :=
  ∃ b, c.get? i = some b ∧ Cond.onBeanID t n ∈ b.conds

/-- Certification property of a successful resolution step from `c` to `c'`:
every bean that became `StatusResolved` during the step certifies, for each
`OnBeanID` condition it carries, a matched live bean in the resulting
container (its condition evaluated `true` through `Find`). -/
def ResProp (c c' : Ctr) : Prop :=
  ∀ i t n, CondAt c i t n → statusAt c' i = some .StatusResolved →
    statusAt c i ≠ some .StatusResolved → MatcherAt c' t n

/-- Global certificate: every `StatusResolved` bean carrying an `OnBeanID`
condition certifies a matched live bean in the same container. -/
def ResCert (c : Ctr) : Prop :=
  ∀ i b t n, c.get? i = some b → Cond.onBeanID t n ∈ b.conds →
    b.status = .StatusResolved → MatcherAt c t n

/-- Identity keys of a bean, as enumerated by `checkDuplicateBeans`:
`for _, t := range append(b.Exports(), b.GetType())` paired with the name. -/
def idKeys (b : Bean) : List (String × Nat) :=
  (b.exports ++ [b.typ]).map (fun t => (b.name, t))

/-- Lookup in the `beansByID` map (modelled as an association list mapping an
identity key to the index of the bean that registered it). -/
def lookupSeen (seen : List ((String × Nat) × Nat)) (k : String × Nat) :
    Option Nat :=
  (seen.find? (fun e => e.1 == k)).map (fun e => e.2)

/-- Message of the duplicate-bean error:
`"found duplicate beans [%s] [%s]"` with the two beans' `String()` forms. -/
def dupMsg (b d : Bean) : String :=
  "found duplicate beans [" ++ b.descr ++ "] [" ++ d.descr ++ "]"

/-- Inner loop of `checkDuplicateBeans` over one bean's identity keys. -/
def insertIDs (c : Ctr) (i : Nat) (b : Bean) :
    List (String × Nat) → List ((String × Nat) × Nat) →
    Except GoErr (List ((String × Nat) × Nat))
  | [], seen => .ok seen
  | k :: ks, seen =>
    match lookupSeen seen k with
    | some j => .error (.msg (dupMsg b ((c.get? j).getD b)))
    | none => insertIDs c i b ks ((k, i) :: seen)

/-- Resolving.checkDuplicateBeans: walk the beans in order, skip deleted
ones, and fail on the first identity key registered twice. -/
def checkDupAux (c : Ctr) : List Nat → List ((String × Nat) × Nat) →
    Except GoErr Unit
  | [], _ => .ok ()
  | i :: rest, seen =>
    match c.get? i with
    | none => checkDupAux c rest seen
    | some b =>
      if b.status == .StatusDeleted then checkDupAux c rest seen
      else
        match insertIDs c i b (idKeys b) seen with
        | .error e => .error e
        | .ok seen2 => checkDupAux c rest seen2

/-- Resolving.checkDuplicateBeans. -/
def checkDuplicateBeans (c : Ctr) : Except GoErr Unit :=
  checkDupAux c (List.range c.length) []

/-- Two beans share an identity when some (type, name) pair can match both:
equal names, and some type that is the own type or an exported interface type
of each. -/
def shareIdentity (b d : Bean) : Prop :=
  b.name = d.name ∧ ∃ t, t ∈ b.exports ++ [b.typ] ∧ t ∈ d.exports ++ [d.typ]

instance (b d : Bean) : Decidable (shareIdentity b d) := by
  unfold shareIdentity
  exact instDecidableAnd

/-- A method of a configuration bean's type, as reported by reflection:
its name, the type of the bean it would construct, and its source location. -/
structure MethodInfo where
  mname : String
  retTy : Nat
  mfileLine : String
deriving DecidableEq, Repr

/-- The reflection and regular-expression environment of a run.  `compile`
models `regexp.Compile` followed by `MatchString` (a compiled pattern is its
unanchored match predicate; compilation may fail); `methodsOf` models
`reflect.Type.NumMethod`/`Method`. -/
structure World where
  compile : String → Except String (String → Bool)
  methodsOf : Nat → List MethodInfo

/-- Compile a list of patterns, failing on the first invalid one with
`util.FormatError(err, "invalid regexp '%s'", s)`. -/
def compilePatterns (w : World) : List String →
    Except GoErr (List (String → Bool))
  | [] => .ok []
  | s :: rest =>
    match w.compile s with
    | .error e => .error (.wrap ("invalid regexp '" ++ s ++ "'") (.msg e))
    | .ok p =>
      match compilePatterns w rest with
      | .error e => .error e
      | .ok ps => .ok (p :: ps)

/-- The bean registered for a scanned configuration method `m` of parent
bean `bd`: named `{parentName}_{MethodName}` and conditioned on the parent's
`BeanID` (the condition appears twice because `gs_bean.NewBean` already adds
the same receiver condition for a method constructor before
`scanConfiguration` appends `gs_cond.OnBeanID(bd.BeanID())`). -/
def methodBean (bd : Bean) (m : MethodInfo) : Bean :=
  { name := bd.name ++ "_" ++ m.mname
    typ := m.retTy
    exports := []
    conds := [.onBeanID (some bd.typ) bd.name, .onBeanID (some bd.typ) bd.name]
    status := .StatusDefault
    configuration := none
    fileLine := m.mfileLine }

/-- Resolving.scanConfiguration: compile the include patterns (defaulting to
`New.*`) and exclude patterns, then register a bean for every method whose
name matches no exclude pattern and some include pattern. -/
def scanConfiguration (w : World) (bd : Bean) (param : Configuration) :
    Except GoErr (List Bean) :=
  match compilePatterns w
      (if param.Includes.isEmpty then ["New.*"] else param.Includes) with
  | .error e => .error e
  | .ok includes =>
    match compilePatterns w param.Excludes with
    | .error e => .error e
    | .ok excludes =>
      .ok ((w.methodsOf bd.typ).filterMap (fun m =>
        if excludes.any (fun p => p m.mname) then none
        else if includes.any (fun p => p m.mname) then some (methodBean bd m)
        else none))

/-- Resolving.scanConfigurations: scan every configuration-class bean of the
original list and append the beans its methods produce, wrapping any error as
"scan configuration error". -/
def scanConfigurations (w : World) : Ctr → List Bean → Except GoErr Ctr
  | acc, [] => .ok acc
  | acc, bd :: rest =>
    match bd.configuration with
    | none => scanConfigurations w acc rest
    | some param =>
      match scanConfiguration w bd param with
      | .error e => .error (.wrap "scan configuration error" e)
      | .ok beans => scanConfigurations w (acc ++ beans) rest

/-- RefreshState mirrors the `resolving` package's container states. -/
inductive RefreshState where
  | RefreshDefault
  | RefreshPrepare
  | Refreshing
  | Refreshed
deriving DecidableEq, Repr

/-- The Resolving container: its refresh state and its bean list. -/
structure Resolving where
  state : RefreshState
  beans : Ctr
deriving Repr

/-- A bean as registered through `Provide`/`gs_init.AddBean`: `NewBean`
always creates it at `StatusDefault`, so the status field is absent. -/
structure PBean where
  name : String
  typ : Nat
  exports : List Nat
  conds : List Cond
  configuration : Option Configuration
  fileLine : String
deriving DecidableEq, Repr

/-- The bean definition a registration produces (status `StatusDefault`). -/
def PBean.toBean (p : PBean) : Bean :=
  { name := p.name, typ := p.typ, exports := p.exports, conds := p.conds
    status := .StatusDefault, configuration := p.configuration
    fileLine := p.fileLine }

/-- A module (`gs_init.Module`): an optional activation condition and a
module function whose observable effect is to register further beans (or to
fail). -/
structure GsModule where
  cond : Option Cond
  run : Except String (List PBean)

/-- Fuel that provably suffices for any resolution on container `c`
(established by the termination theorem below): the recursion depth is
bounded by the number of beans still at `StatusDefault`. -/
def enoughFuel (c : Ctr) : Nat := c.length + 2

/-- Resolving.applyModules: evaluate each module's condition against the
current container (skipping the module when it is false), then run the
module, appending the beans it registers; a module error is wrapped as
"apply module error", a condition error is returned as is. -/
def applyModules : List GsModule → Ctr → Except GoErr Ctr
  | [], c => .ok c
  | m :: ms, c =>
    match m.cond with
    | some cond =>
      match condMatches (enoughFuel c) c cond with
      | none => .error (.msg "fuel exhausted")
      | some (.error e) => .error e
      | some (.ok (false, c1)) => applyModules ms c1
      | some (.ok (true, c1)) =>
        match m.run with
        | .error e => .error (.wrap "apply module error" (.msg e))
        | .ok pbs => applyModules ms (c1 ++ pbs.map PBean.toBean)
    | none =>
      match m.run with
      | .error e => .error (.wrap "apply module error" (.msg e))
      | .ok pbs => applyModules ms (c ++ pbs.map PBean.toBean)

/-- Resolving.Refresh: the phase sequence of container initialization.
Returns the container after the call together with the call's result.  The
fuelled resolution functions are run with provably sufficient fuel (`none`
can not actually occur; it is mapped to an artifact error).  On an error the
recorded refresh state matches the Go code exactly; the bean statuses at the
moment of an aborting error are not tracked (the aborted container is not
observable through any further successful operation). -/
def Refresh (w : World) (modules : List GsModule) (initBeans : List PBean)
    (r : Resolving) : Resolving × Except GoErr Unit :=
  if r.state != .RefreshDefault then
    (r, .error (.msg "container is already refreshing or refreshed"))
  else
    match applyModules modules (initBeans.map PBean.toBean ++ r.beans) with
    | .error e =>
      ({ state := .RefreshPrepare
         beans := initBeans.map PBean.toBean ++ r.beans }, .error e)
    | .ok c1 =>
      match scanConfigurations w c1 c1 with
      | .error e => ({ state := .Refreshing, beans := c1 }, .error e)
      | .ok c2 =>
        match resolveBeans (enoughFuel c2) c2 with
        | none => ({ state := .Refreshing, beans := c2 },
            .error (.msg "fuel exhausted"))
        | some (.error e) => ({ state := .Refreshing, beans := c2 }, .error e)
        | some (.ok c3) =>
          match checkDuplicateBeans c3 with
          | .error e => ({ state := .Refreshing, beans := c3 }, .error e)
          | .ok _ => ({ state := .Refreshed, beans := c3 }, .ok ())

/-- The captured state of the `OnOnce` closure: its `done` flag and the
memoized `result`. -/
structure OnceState where
  done : Bool
  result : Bool
deriving DecidableEq, Repr

/-- A single `Matches` outcome of a condition: the boolean it returns and an
optional error. -/
abbrev MatchOutcome := Bool × Option String

/-- Modelled from the spec: `gs_cond.And` (its source is not part of this
repository).  The spec states that `And` combines conditions with logical
AND, short-circuits on the first failing condition and propagates the first
evaluation error it encounters. -/
def andMatches : List MatchOutcome → MatchOutcome
  | [] => (true, none)
  | (_, some err) :: _ => (false, some err)
  | (false, none) :: _ => (false, none)
  | (true, none) :: rest => andMatches rest

/-- One `Matches` call of the condition built by `OnOnce`: when `done` is
already set the memoized result is returned with a nil error; otherwise
`done` is set, the AND-combination of the wrapped conditions is evaluated,
its boolean is memoized, and its outcome (boolean and possible error) is
returned. -/
def onOnceMatches (eval : MatchOutcome) (st : OnceState) :
    MatchOutcome × OnceState :=
  if st.done then ((st.result, none), st)
  else ((eval.1, eval.2), { done := true, result := eval.1 })

/-- The sequence of `Matches` calls on one `OnOnce` condition:
`condResults k` lists the outcomes the wrapped conditions would produce if
they were evaluated at call `k` (call numbering starts at 0).  Returns the
outcome of call `n` together with the closure state after it. -/
def onOnceRun (condResults : Nat → List MatchOutcome) :
    Nat → MatchOutcome × OnceState
  | 0 => onOnceMatches (andMatches (condResults 0)) { done := false, result := false }
  | n + 1 => onOnceMatches (andMatches (condResults (n + 1)))
      (onOnceRun condResults n).2

/-- A flat property layer (`conf.MutableProperties` restricted to the scalar
keys the layering claim is about). -/
abbrev Props := List (String × String)

/-- Lookup of a key. -/
def pget : Props → String → Option String
  | [], _ => none
  | (k', v') :: rest, k => if k' = k then some v' else pget rest k

/-- Set a key, overriding the existing binding in place (the flat key-value
store is a string map; a layer never binds a key twice). -/
def pset : Props → String → String → Props
  | [], k, v => [(k, v)]
  | (k', v') :: rest, k, v =>
    if k' = k then (k, v) :: rest else (k', v') :: pset rest k v

/-- A well-formed layer binds each key at most once (it is a map). -/
def keysNodup (p : Props) : Prop := (p.map Prod.fst).Nodup

/-- MutableProperties.CopyTo: copy all of `src` into `out`, overriding values
whose keys already exist (as documented on `CopyTo` in `conf`). -/
def copyTo (src out : Props) : Props :=
  src.foldl (fun acc kv => pset acc kv.1 kv.2) out

/-- The `merge` helper of `gs_conf`: apply the sources in order into an empty
property set; later sources override earlier ones. -/
def mergeList (sources : List Props) : Props :=
  sources.foldl (fun acc s => copyTo s acc) []

/-- The value a key receives from a list of layers when each later layer
overrides the earlier ones. -/
def lastWins (layers : List Props) (k : String) : Option String :=
  layers.foldl
    (fun acc l => match pget l k with | some v => some v | none => acc) none

/-- Outcome of loading one local candidate configuration file:
the file may not exist (skipped), load cleanly, or fail. -/
inductive LoadResult where
  | notExist
  | ok (p : Props)
  | err (e : String)

/-- The configuration environment of one `AppConfig.Refresh` call:
the app-level property set (`c.Properties`, holding the application/system
defaults), the environment-variable layer, the command-line layer, the local
file system, and the import loader.  `importsOf` is modelled from the spec:
it extracts the list of import sources that the `spring.app.imports`
property of the merged configuration designates (the binding machinery is
outside the sources at hand). -/
structure ConfWorld where
  appProps : Props
  envProps : Props
  cmdProps : Props
  loadFile : String → LoadResult
  loadImport : String → Except String (Option Props)
  importsOf : Props → List String

/-- The file extensions tried for each candidate configuration file, in
order. -/
def extensions : List String :=
  [".properties", ".yaml", ".yml", ".toml", ".tml", ".json"]

/-- filepath.Join, for the needs of candidate-path construction. -/
def joinPath (dir f : String) : String := dir ++ "/" ++ f

/-- getAppFiles: the base `app.*` candidates (one per extension), followed by
the profile-specific `app-{profile}.*` candidates, per active profile in
order, per extension in order. -/
def getAppFiles (dir : String) (activeProfiles : List String) : List String :=
  (extensions.map (fun ext => joinPath dir ("app" ++ ext))) ++
  activeProfiles.flatMap
    (fun s => extensions.map (fun ext => joinPath dir ("app-" ++ s ++ ext)))

/-- Split a character list at commas (`strings.SplitSeq(s, ",")`). -/
def splitCommaAux : List Char → List Char → List String
  | [], acc => [String.mk acc.reverse]
  | c :: rest, acc =>
    if c = ',' then String.mk acc.reverse :: splitCommaAux rest []
    else splitCommaAux rest (c :: acc)

/-- Split a string at commas. -/
def splitComma (s : String) : List String := splitCommaAux s.data []

/-- ASCII whitespace, as trimmed by `strings.TrimSpace`. -/
def isSpaceChar (c : Char) : Bool :=
  c = ' ' || c = '\t' || c = '\n' || c = '\r'

/-- Trim leading and trailing whitespace (`strings.TrimSpace`). -/
def trimChars (s : String) : String :=
  String.mk (((s.data.dropWhile isSpaceChar).reverse.dropWhile
    isSpaceChar).reverse)

/-- Parse the `spring.profiles.active` value: comma-separated, trimmed,
empty entries dropped. -/
def parseProfiles (s : String) : List String :=
  ((splitComma s).map trimChars).filter (fun x => x != "")

/-- loadFiles: resolve the configuration directory and active profiles from
the preliminary merge (the two `${key:=default}` placeholders are single-key
lookups with a default), build the candidate list, and load every candidate
that exists; a load failure aborts.  The candidate file names are taken as
literal paths (they contain no placeholders). -/
def loadFiles (w : ConfWorld) (p : Props) : Except String (List Props) :=
  let dir := (pget p "spring.app.config.dir").getD "./conf"
  let profiles := parseProfiles ((pget p "spring.profiles.active").getD "")
  let files := getAppFiles dir profiles
  files.foldr
    (fun f acc =>
      match w.loadFile f with
      | .notExist => acc
      | .err e => .error e
      | .ok props =>
        match acc with
        | .error e => .error e
        | .ok rest => .ok (props :: rest))
    (.ok [])

/-- Load the import sources in order; a failing load aborts, a nil result is
skipped. -/
def loadImports (w : ConfWorld) : List String → Except String (List Props)
  | [] => .ok []
  | s :: rest =>
    match w.loadImport s with
    | .error e => .error e
    | .ok none => loadImports w rest
    | .ok (some p) =>
      match loadImports w rest with
      | .error e => .error e
      | .ok ps => .ok (p :: ps)

/-- AppConfig.Refresh: merge `app`, `env`, `cmd` to resolve where the local
files live; load them; merge `app`, the local files, `env`, `cmd`; when
imports are enabled, read the import list from that merge and produce the
final merge of `app`, local files, imports, `env`, `cmd` — in that order,
later sources overriding earlier ones. -/
def AppConfigRefresh (w : ConfWorld) (useImport : Bool) :
    Except String Props :=
  match loadFiles w (mergeList [w.appProps, w.envProps, w.cmdProps]) with
  | .error e => .error ("refresh error in source local: " ++ e)
  | .ok localFiles =>
    if !useImport then
      .ok (mergeList ([w.appProps] ++ localFiles ++
        [w.envProps, w.cmdProps]))
    else
      match loadImports w (w.importsOf (mergeList ([w.appProps] ++
          localFiles ++ [w.envProps, w.cmdProps]))) with
      | .error e => .error e
      | .ok importProps =>
        .ok (mergeList ([w.appProps] ++ localFiles ++ importProps ++
          [w.envProps, w.cmdProps]))

/-- Program counter of one server goroutine in `App.Start`'s readiness
phase. -/
inductive ServerPC where
  | notLaunched
  | spawned
  | gateWaiting
  | released
  | interceptedExit
deriving DecidableEq, Repr

/-- Program counter of the main goroutine in `App.Start`'s readiness phase.
`returned (some e)` is `Start` returning error `e`; `returned none` is
`Start` returning nil. -/
inductive MainPC where
  | launching (k : Nat)
  | waitingBarrier
  | closedGate
  | returned (res : Option String)
deriving DecidableEq, Repr

/-- State of the readiness barrier (`ReadySignalImpl`) together with the
relevant program counters: the WaitGroup counter, the interception flag, the
gate channel (closed or not), the main goroutine and the server
goroutines. -/
structure BarrierState where
  counter : Nat
  intercepted : Bool
  chClosed : Bool
  main : MainPC
  servers : List ServerPC
deriving DecidableEq, Repr

/-- Interleaving semantics of the readiness phase.  Main launches the
servers one at a time (each launch performs `sig.Add()` then starts the
goroutine), then blocks in `sig.Wait()`, which returns only when the counter
is zero; it then closes the gate (success) or returns the
"server intercepted" error without closing it.  A running server either
performs `TriggerAndWait` (decrement, then block on the gate) or performs the
error/panic path (`sig.Intercept()`: set the flag, decrement, exit); a server
blocked on the gate proceeds only once the gate is closed. -/
inductive BarrierStep : BarrierState → BarrierState → Prop where
  | launch (s : BarrierState) (k : Nat)
      (hm : s.main = .launching k)
      (hs : s.servers.get? k = some .notLaunched) :
      BarrierStep s { s with
        counter := s.counter + 1
        main := .launching (k + 1)
        servers := s.servers.set k .spawned }
  | mainWait (s : BarrierState)
      (hm : s.main = .launching s.servers.length) :
      BarrierStep s { s with main := .waitingBarrier }
  | trigger (s : BarrierState) (i : Nat)
      (hs : s.servers.get? i = some .spawned) :
      BarrierStep s { s with
        counter := s.counter - 1
        servers := s.servers.set i .gateWaiting }
  | intercept (s : BarrierState) (i : Nat)
      (hs : s.servers.get? i = some .spawned) :
      BarrierStep s { s with
        counter := s.counter - 1
        intercepted := true
        servers := s.servers.set i .interceptedExit }
  | mainErr (s : BarrierState)
      (hm : s.main = .waitingBarrier) (hc : s.counter = 0)
      (hi : s.intercepted = true) :
      BarrierStep s { s with main := .returned (some "server intercepted") }
  | mainClose (s : BarrierState)
      (hm : s.main = .waitingBarrier) (hc : s.counter = 0)
      (hi : s.intercepted = false) :
      BarrierStep s { s with chClosed := true, main := .closedGate }
  | mainOk (s : BarrierState)
      (hm : s.main = .closedGate) :
      BarrierStep s { s with main := .returned none }
  | release (s : BarrierState) (i : Nat)
      (hs : s.servers.get? i = some .gateWaiting)
      (hc : s.chClosed = true) :
      BarrierStep s { s with servers := s.servers.set i .released }

/-- Initial state of the readiness phase with `n` servers. -/
def barrierInit (n : Nat) : BarrierState :=
  { counter := 0, intercepted := false, chClosed := false
    main := .launching 0, servers := List.replicate n .notLaunched }

/-- Reachability from the initial state with `n` servers. -/
def BarrierReach (n : Nat) (s : BarrierState) : Prop :=
  Relation.ReflTransGen BarrierStep (barrierInit n) s

/-- Number of launched servers in `l` that have not yet decremented the
counter. -/
def spCount (l : List ServerPC) : Nat :=
  (List.range l.length).countP (fun i => l.get? i == some .spawned)

/-- Number of launched servers that have not yet decremented the counter. -/
def spawnedCount (s : BarrierState) : Nat :=
  spCount s.servers

/-- Contribution of one server program counter to `spCount`. -/
def sp1 : ServerPC → Nat
  | .spawned => 1
  | _ => 0

/-- The inductive invariant of the readiness barrier. -/
structure BarrierInv (s : BarrierState) : Prop where
  counterEq : s.counter = spCount s.servers
  closedNoIntercept : s.chClosed = true →
    s.intercepted = false ∧ s.counter = 0
  closedMain : s.chClosed = true →
    s.main = .closedGate ∨ s.main = .returned none
  launchProgress : ∀ k, s.main = .launching k → ∀ i, i < k →
    ∀ pc, s.servers.get? i = some pc → pc ≠ .notLaunched
  launched : (s.main = .waitingBarrier ∨ s.main = .closedGate ∨
      ∃ r, s.main = .returned r) →
    ∀ i pc, s.servers.get? i = some pc → pc ≠ .notLaunched
  returnedErr : ∀ e, s.main = .returned (some e) →
    e = "server intercepted" ∧ s.intercepted = true ∧ s.chClosed = false
  successPath : (s.main = .closedGate ∨ s.main = .returned none) →
    s.intercepted = false ∧ s.chClosed = true
  donePath : (s.main = .closedGate ∨ ∃ r, s.main = .returned r) →
    s.counter = 0
  releasedClosed : ∀ i, s.servers.get? i = some .released →
    s.chClosed = true

/-- The state reached in the counterexample run: two servers, the first
blocked on the gate after `TriggerAndWait`, the second having intercepted;
`Start` has returned the "server intercepted" error without closing the
gate. -/
def c9State : BarrierState :=
  { counter := 0, intercepted := true, chClosed := false
    main := .returned (some "server intercepted")
    servers := [.gateWaiting, .interceptedExit] }

/-! ### Concrete examples used by counterexamples and witnesses -/

/-- Counterexample container for the duplicate-naming claim: three resolved
beans sharing the name "x"; A and B share the concrete type 1, and C exports
interface type 1, so B also collides with C — but the scan reports the first
collision, naming B and A only. -/
def beanAC2 : Bean :=
  { name := "x", typ := 1, exports := [], conds := []
    status := .StatusResolved, configuration := none, fileLine := "a.go:1" }

/-- Second bean of the duplicate-naming counterexample. -/
def beanBC2 : Bean :=
  { name := "x", typ := 1, exports := [], conds := []
    status := .StatusResolved, configuration := none, fileLine := "b.go:2" }

/-- Third bean of the duplicate-naming counterexample: it can be matched
under (type 1, "x") through its exported interface type. -/
def beanCC2 : Bean :=
  { name := "x", typ := 2, exports := [1], conds := []
    status := .StatusResolved, configuration := none, fileLine := "c.go:3" }

/-- The duplicate-naming counterexample container. -/
def exC2 : Ctr := [beanAC2, beanBC2, beanCC2]

/-- The reflection/regexp world of the C5 runs: every pattern compiles to a
predicate accepting every method name, and type 10 (the configuration
parent's type) has exactly one method, `NewOrder`, constructing type 20. -/
def wC5 : World :=
  { compile := fun _ => .ok (fun _ => true)
    methodsOf := fun t =>
      if t == 10 then
        [{ mname := "NewOrder", retTy := 20, mfileLine := "cfg.go:5" }]
      else [] }

/-- C5 parent: a configuration-class bean whose own condition is false. -/
def pbParentC5 : PBean :=
  { name := "cfg", typ := 10, exports := []
    conds := [.res "disabled" (.ok false)]
    configuration := some { Includes := [], Excludes := [] }
    fileLine := "cfg.go:1" }

/-- C5 twin: a plain bean sharing the parent's (type, name) identity. -/
def pbTwinC5 : PBean :=
  { name := "cfg", typ := 10, exports := [], conds := []
    configuration := none, fileLine := "twin.go:1" }

/-! ### Basic lemmas about statuses, `setStatus` and the `dflt` measure -/

theorem statusAt_eq (c : Ctr) (j : Nat) :
    statusAt c j = (c.get? j).map Bean.status := rfl

theorem setStatus_length (c : Ctr) (i : Nat) (s : BeanStatus) :
    (setStatus c i s).length = c.length := by
  unfold setStatus
  cases h : c.get? i
  · rfl
  · simp [List.length_set]

theorem setStatus_get?_self {c : Ctr} {i : Nat} {b : Bean} (s : BeanStatus)
    (h : c.get? i = some b) :
    (setStatus c i s).get? i = some { b with status := s } := by
  unfold setStatus
  rw [h]
  have hlt : i < c.length := by
    rcases List.get?_eq_some.mp h with ⟨hl, _⟩
    exact hl
  exact List.get?_set_eq_of_lt _ hlt

theorem setStatus_get?_other {c : Ctr} {i j : Nat} (s : BeanStatus)
    (h : i ≠ j) : (setStatus c i s).get? j = c.get? j := by
  unfold setStatus
  cases hg : c.get? i
  · rfl
  · exact List.get?_set_ne _ _ h

theorem setStatus_none {c : Ctr} {i : Nat} (s : BeanStatus)
    (h : c.get? i = none) : setStatus c i s = c := by
  unfold setStatus
  rw [h]

theorem statusAt_setStatus_self {c : Ctr} {i : Nat} {b : Bean}
    (s : BeanStatus) (h : c.get? i = some b) :
    statusAt (setStatus c i s) i = some s := by
  rw [statusAt_eq, setStatus_get?_self s h]
  rfl

theorem statusAt_setStatus_other {c : Ctr} {i j : Nat} (s : BeanStatus)
    (h : i ≠ j) : statusAt (setStatus c i s) j = statusAt c j := by
  rw [statusAt_eq, setStatus_get?_other s h, statusAt_eq]

theorem shapeAt_setStatus (c : Ctr) (i : Nat) (s : BeanStatus) (j : Nat) :
    shapeAt (setStatus c i s) j = shapeAt c j := by
  by_cases hij : i = j
  · subst hij
    cases h : c.get? i
    · rw [setStatus_none s h]
    · unfold shapeAt
      rw [setStatus_get?_self s h, h]
      rfl
  · unfold shapeAt
    rw [setStatus_get?_other s hij]

theorem get?_isSome_of_length {c c' : Ctr} (hlen : c'.length = c.length)
    {j : Nat} {b : Bean} (h : c.get? j = some b) : ∃ b', c'.get? j = some b' := by
  have hlt : j < c.length := by
    rcases List.get?_eq_some.mp h with ⟨hl, _⟩
    exact hl
  have : j < c'.length := by omega
  rcases List.get?_eq_some.mpr ⟨this, rfl⟩ with h'
  exact ⟨_, h'⟩

theorem shape_fields {b b' : Bean} (h : Bean.shape b = Bean.shape b') :
    b.name = b'.name ∧ b.typ = b'.typ ∧ b.exports = b'.exports ∧
    b.conds = b'.conds ∧ b.configuration = b'.configuration ∧
    b.fileLine = b'.fileLine := by
  unfold Bean.shape at h
  cases b
  cases b'
  simp_all

theorem isBeanMatched_shape {t : Option Nat} {n : String} {b b' : Bean}
    (h : Bean.shape b = Bean.shape b') :
    isBeanMatched t n b = isBeanMatched t n b' := by
  rcases shape_fields h with ⟨h1, h2, h3, _⟩
  unfold isBeanMatched
  rw [h1, h2, h3]

theorem dflt_le_length (c : Ctr) : dflt c ≤ c.length := by
  unfold dflt
  calc (List.range c.length).countP _ ≤ (List.range c.length).length :=
        List.countP_le_length _
    _ = c.length := List.length_range c.length

theorem dflt_le_of_pointwise {c c' : Ctr} (hlen : c'.length = c.length)
    (h : ∀ j, statusAt c' j = some .StatusDefault →
      statusAt c j = some .StatusDefault) : dflt c' ≤ dflt c := by
  unfold dflt
  rw [hlen]
  refine List.countP_mono_left ?_
  intro a _ ha
  have := h a (by simpa using ha)
  simpa using this

theorem countP_lt_of_mem {l : List Nat} {p q : Nat → Bool}
    (hpq : ∀ a ∈ l, q a = true → p a = true) {i : Nat} (hi : i ∈ l)
    (hqi : q i = false) (hpi : p i = true) : l.countP q < l.countP p := by
  induction l with
  | nil => cases hi
  | cons a l ih =>
    rw [List.countP_cons, List.countP_cons]
    rcases List.mem_cons.mp hi with rfl | hmem
    · rw [hqi, hpi]
      have hle : l.countP q ≤ l.countP p :=
        List.countP_mono_left (fun x hx hq => hpq x (List.mem_cons_of_mem _ hx) hq)
      have e1 : (if false = true then 1 else 0) = 0 := by simp
      have e2 : (if true = true then 1 else 0) = 1 := by simp
      omega
    · have hrec := ih (fun x hx hq => hpq x (List.mem_cons_of_mem _ hx) hq) hmem
      have hone : (if q a = true then 1 else 0) ≤ (if p a = true then 1 else 0) := by
        by_cases hqa : q a = true
        · rw [if_pos hqa, if_pos (hpq a (List.mem_cons_self a l) hqa)]
        · simp [hqa]
      omega

theorem dflt_lt_of_pointwise {c c' : Ctr} (hlen : c'.length = c.length)
    (h : ∀ j, statusAt c' j = some .StatusDefault →
      statusAt c j = some .StatusDefault)
    {i : Nat} (hi : statusAt c i = some .StatusDefault)
    (hi' : statusAt c' i ≠ some .StatusDefault) : dflt c' < dflt c := by
  unfold dflt
  rw [hlen]
  have hmem : i ∈ List.range c.length := by
    have hlt : i < c.length := by
      unfold statusAt at hi
      cases hg : c.get? i with
      | none => rw [hg] at hi; cases hi
      | some b =>
        rcases List.get?_eq_some.mp hg with ⟨hl, _⟩
        exact hl
    simpa using hlt
  refine countP_lt_of_mem ?_ hmem ?_ ?_
  · intro a _ ha
    have := h a (by simpa using ha)
    simpa using this
  · simpa using hi'
  · simpa using hi

/-! ### Status case facts and invariant algebra -/

theorem status_not_ge_resolving {s : BeanStatus}
    (h : s.ge .StatusResolving = false) :
    s = .StatusDefault ∨ s = .StatusDeleted := by
  cases s <;> simp_all [BeanStatus.ge, BeanStatus.toInt]

theorem status_ge_resolving_ne_resolving {s : BeanStatus}
    (h : s.ge .StatusResolving = true) (hne : s ≠ .StatusResolving) :
    s.ge .StatusResolved = true := by
  cases s <;> simp_all [BeanStatus.ge, BeanStatus.toInt]

theorem status_other_ge_resolving {s : BeanStatus}
    (h1 : s ≠ .StatusResolving) (h2 : s ≠ .StatusDeleted)
    (h3 : s ≠ .StatusDefault) : s.ge .StatusResolving = true := by
  cases s <;> simp_all [BeanStatus.ge, BeanStatus.toInt]

theorem status_ge_resolved_cases {s : BeanStatus}
    (h : s.ge .StatusResolved = true) :
    s ≠ .StatusDefault ∧ s ≠ .StatusDeleted ∧ s ≠ .StatusResolving := by
  cases s <;> simp_all [BeanStatus.ge, BeanStatus.toInt]

theorem innerInv_refl (c : Ctr) : InnerInv c c where
  len := rfl
  shape := fun _ => rfl
  frozenHi := fun _ _ h _ => h
  resolvingKeep := fun _ h => h
  resolvingNew := fun _ h => h
  deletedKeep := fun _ h => h
  upward := fun _ => Or.inl rfl

theorem innerInv_trans {a b c : Ctr} (h1 : InnerInv a b) (h2 : InnerInv b c) :
    InnerInv a c where
  len := h2.len.trans h1.len
  shape := fun j => (h2.shape j).trans (h1.shape j)
  frozenHi := fun j s hs hge => h2.frozenHi j s (h1.frozenHi j s hs hge) hge
  resolvingKeep := fun j h => h2.resolvingKeep j (h1.resolvingKeep j h)
  resolvingNew := fun j h => h1.resolvingNew j (h2.resolvingNew j h)
  deletedKeep := fun j h => h2.deletedKeep j (h1.deletedKeep j h)
  upward := fun j => by
    rcases h2.upward j with h | h | h | h
    · rw [h]; exact h1.upward j
    · exact Or.inr (Or.inl h)
    · exact Or.inr (Or.inr (Or.inl h))
    · exact Or.inr (Or.inr (Or.inr h))

theorem innerInv_dflt_le {c c' : Ctr} (h : InnerInv c c') :
    dflt c' ≤ dflt c := by
  refine dflt_le_of_pointwise h.len ?_
  intro j hj
  rcases h.upward j with hu | hu | hu | hu
  · rw [← hu]; exact hj
  all_goals rw [hj] at hu; cases hu

theorem rbInv_dflt_le {i : Nat} {c c' : Ctr} (h : RBInv i c c') :
    dflt c' ≤ dflt c := by
  refine dflt_le_of_pointwise h.len ?_
  intro j hj
  rcases h.upward j with hu | hu | hu | hu
  · rw [← hu]; exact hj
  all_goals rw [hj] at hu; cases hu

theorem rbInv_toInner {i : Nat} {c c' : Ctr} (h : RBInv i c c')
    (hnd : statusAt c i ≠ some .StatusDeleted) : InnerInv c c' where
  len := h.len
  shape := h.shape
  frozenHi := h.frozenHi
  resolvingKeep := h.resolvingKeep
  resolvingNew := h.resolvingNew
  deletedKeep := fun j hj => by
    by_cases hij : j = i
    · subst hij; exact absurd hj hnd
    · exact h.deletedKeep j hij hj
  upward := h.upward

/-- Transport a matched, at-least-resolved bean at a fixed index across an
`InnerInv` step. -/
theorem matcher_transport_at {c c' : Ctr} (h : InnerInv c c')
    {t : Option Nat} {n : String} {j : Nat} {b : Bean}
    (hget : c.get? j = some b) (hmat : isBeanMatched t n b = true)
    (hge : b.status.ge .StatusResolved = true) :
    ∃ b', c'.get? j = some b' ∧ isBeanMatched t n b' = true ∧
      b'.status.ge .StatusResolved = true := by
  have hs : statusAt c' j = some b.status :=
    h.frozenHi j b.status (by rw [statusAt_eq, hget]; rfl) hge
  rcases get?_isSome_of_length h.len hget with ⟨b', hget'⟩
  have hsb : b'.status = b.status := by
    rw [statusAt_eq, hget'] at hs
    simpa using hs
  have hshape : Bean.shape b' = Bean.shape b := by
    have := h.shape j
    unfold shapeAt at this
    rw [hget, hget'] at this
    simpa using this
  refine ⟨b', hget', ?_, ?_⟩
  · rw [isBeanMatched_shape hshape, hmat]
  · rw [hsb]; exact hge

/-- Transport a matched, at-least-resolved bean across an `InnerInv` step. -/
theorem matcher_transport {c c' : Ctr} (h : InnerInv c c')
    {t : Option Nat} {n : String}
    (hm : ∃ j b, c.get? j = some b ∧ isBeanMatched t n b = true ∧
      b.status.ge .StatusResolved = true) :
    ∃ j b, c'.get? j = some b ∧ isBeanMatched t n b = true ∧
      b.status.ge .StatusResolved = true := by
  rcases hm with ⟨j, b, hget, hmat, hge⟩
  rcases matcher_transport_at h hget hmat hge with ⟨b', h1, h2, h3⟩
  exact ⟨j, b', h1, h2, h3⟩

/-! ### Invariant preservation through the mutually recursive resolution -/

theorem findAuxFn_ok {rb : Ctr → Nat → Option (Except GoErr Ctr)}
    (hrb : RBSpec rb) :
    ∀ (idxs : List Nat) (c : Ctr) (t : Option Nat) (n : String)
      (acc found : List Nat) (c' : Ctr),
      findAuxFn rb c t n idxs acc = some (.ok (found, c')) → InnerInv c c' := by
  intro idxs
  induction idxs with
  | nil =>
    intro c t n acc found c' h
    rw [findAuxFn] at h
    injection h with h
    injection h with h
    injection h with _ h
    rw [← h]
    exact innerInv_refl c
  | cons j rest ih =>
    intro c t n acc found c' h
    rw [findAuxFn] at h
    split at h
    · exact ih _ _ _ _ _ _ h
    · rename_i b hget
      split at h
      · exact ih _ _ _ _ _ _ h
      · rename_i hskip
        split at h
        · exact ih _ _ _ _ _ _ h
        · split at h
          · cases h
          · cases h
          · rename_i c2 hrbcall
            have hnd : statusAt c j ≠ some .StatusDeleted := by
              rw [statusAt_eq, hget]
              intro hc
              have : b.status = .StatusDeleted := by simpa using hc
              simp [this] at hskip
            have hin : InnerInv c c2 := rbInv_toInner (hrb _ _ _ hrbcall) hnd
            split at h
            · exact innerInv_trans hin (ih _ _ _ _ _ _ h)
            · split at h
              · exact innerInv_trans hin (ih _ _ _ _ _ _ h)
              · exact innerInv_trans hin (ih _ _ _ _ _ _ h)

theorem condMatchesFn_ok {rb : Ctr → Nat → Option (Except GoErr Ctr)}
    (hrb : RBSpec rb) {c : Ctr} {cond : Cond} {flag : Bool} {c' : Ctr}
    (h : condMatchesFn rb c cond = some (.ok (flag, c'))) : InnerInv c c' := by
  rw [condMatchesFn.eq_def] at h
  cases cond with
  | res descr r =>
    cases r with
    | ok b =>
      simp only at h
      injection h with h
      injection h with h
      injection h with _ h
      rw [← h]
      exact innerInv_refl c
    | error m =>
      simp only at h
      exact absurd h (by simp)
  | onBeanID t n =>
    simp only at h
    split at h
    · cases h
    · cases h
    · rename_i found c2 hfind
      injection h with h
      injection h with h
      injection h with _ h
      rw [← h]
      exact findAuxFn_ok hrb _ _ _ _ _ _ _ hfind

theorem evalCondsFn_ok {rb : Ctr → Nat → Option (Except GoErr Ctr)}
    (hrb : RBSpec rb) :
    ∀ (conds : List Cond) (c : Ctr) (flag : Bool) (c' : Ctr),
      evalCondsFn rb c conds = some (.ok (flag, c')) → InnerInv c c' := by
  intro conds
  induction conds with
  | nil =>
    intro c flag c' h
    rw [evalCondsFn] at h
    injection h with h
    injection h with h
    injection h with _ h
    rw [← h]
    exact innerInv_refl c
  | cons cond rest ih =>
    intro c flag c' h
    rw [evalCondsFn] at h
    split at h
    · cases h
    · cases h
    · rename_i c2 hcm
      injection h with h
      injection h with h
      injection h with _ h
      rw [← h]
      exact condMatchesFn_ok hrb hcm
    · rename_i c2 hcm
      exact innerInv_trans (condMatchesFn_ok hrb hcm) (ih _ _ _ h)

/-- Construction of `RBInv` for the main branch of `resolveBean`: the target
is marked resolving, the conditions are evaluated (an `InnerInv` step), and
the target receives its final status. -/
theorem rbinv_sandwich {c c2 : Ctr} {i : Nat} {b : Bean} {fin : BeanStatus}
    (hget : c.get? i = some b)
    (hnge : b.status.ge .StatusResolving = false)
    (hinner : InnerInv (setStatus c i .StatusResolving) c2)
    (hfin : fin = .StatusResolved ∨ fin = .StatusDeleted) :
    RBInv i c (setStatus c2 i fin) := by
  have hlen1 : (setStatus c i .StatusResolving).length = c.length :=
    setStatus_length c i .StatusResolving
  have hlen : (setStatus c2 i fin).length = c.length := by
    rw [setStatus_length, hinner.len, hlen1]
  have hc2i : ∃ b2, c2.get? i = some b2 := by
    refine get?_isSome_of_length ?_ (setStatus_get?_self .StatusResolving hget)
    rw [hinner.len]
  have hstat' : statusAt (setStatus c2 i fin) i = some fin := by
    rcases hc2i with ⟨b2, hb2⟩
    exact statusAt_setStatus_self fin hb2
  have hfin_ne_resolving : fin ≠ .StatusResolving := by
    rcases hfin with rfl | rfl <;> intro hc <;> cases hc
  refine ⟨hlen, ?_, ?_, ?_, ?_, ?_, ?_, ?_⟩
  · intro j
    rw [shapeAt_setStatus]
    rw [hinner.shape j, shapeAt_setStatus]
  · intro j s hs hge
    by_cases hij : j = i
    · subst hij
      rw [statusAt_eq, hget] at hs
      have hbs : b.status = s := by simpa using hs
      have : s.ge .StatusResolving = true := by
        rcases status_ge_resolved_cases hge with ⟨h1, h2, h3⟩
        exact status_other_ge_resolving h3 h2 h1
      rw [← hbs] at this
      rw [this] at hnge
      cases hnge
    · rw [statusAt_setStatus_other fin (fun he => hij he.symm)]
      refine hinner.frozenHi j s ?_ hge
      rw [statusAt_setStatus_other .StatusResolving (fun he => hij he.symm)]
      exact hs
  · intro j hj
    by_cases hij : j = i
    · subst hij
      rw [statusAt_eq, hget] at hj
      have hbs : b.status = .StatusResolving := by simpa using hj
      rw [hbs] at hnge
      cases hnge
    · rw [statusAt_setStatus_other fin (fun he => hij he.symm)]
      refine hinner.resolvingKeep j ?_
      rw [statusAt_setStatus_other .StatusResolving (fun he => hij he.symm)]
      exact hj
  · intro j hj
    by_cases hij : j = i
    · subst hij
      rw [hstat'] at hj
      injection hj with hj
      exact absurd hj hfin_ne_resolving
    · rw [statusAt_setStatus_other fin (fun he => hij he.symm)] at hj
      have := hinner.resolvingNew j hj
      rw [statusAt_setStatus_other .StatusResolving (fun he => hij he.symm)] at this
      exact this
  · intro j hij hj
    rw [statusAt_setStatus_other fin (fun he => hij he.symm)]
    refine hinner.deletedKeep j ?_
    rw [statusAt_setStatus_other .StatusResolving (fun he => hij he.symm)]
    exact hj
  · intro j
    by_cases hij : j = i
    · subst hij
      rw [hstat']
      rcases hfin with rfl | rfl
      · exact Or.inr (Or.inr (Or.inl rfl))
      · exact Or.inr (Or.inr (Or.inr rfl))
    · rw [statusAt_setStatus_other fin (fun he => hij he.symm)]
      rcases hinner.upward j with hu | hu | hu | hu
      · rw [statusAt_setStatus_other .StatusResolving (fun he => hij he.symm)] at hu
        exact Or.inl hu
      · exact Or.inr (Or.inl hu)
      · exact Or.inr (Or.inr (Or.inl hu))
      · exact Or.inr (Or.inr (Or.inr hu))
  · rw [hstat']
    rcases hfin with rfl | rfl
    · exact Or.inr (Or.inr (Or.inl rfl))
    · exact Or.inr (Or.inr (Or.inr rfl))

/-- The trivial `RBInv` when the container is returned unchanged. -/
theorem rbinv_id {c : Ctr} {i : Nat}
    (htarget : (∃ b, c.get? i = some b ∧ b.status.ge .StatusResolving = true) ∨
      c.get? i = none) : RBInv i c c := by
  refine RBInv.mk rfl (fun _ => rfl) (fun _ _ h _ => h) (fun _ h => h)
    (fun _ h => h) (fun _ _ h => h) (fun _ => Or.inl rfl) ?_
  rcases htarget with ⟨b, hget, hge⟩ | hnone
  · exact Or.inl ⟨b, hget, hge, rfl⟩
  · exact Or.inr (Or.inl ⟨hnone, rfl⟩)

/-- Every successful `resolveBean` call satisfies the `RBInv` invariant. -/
theorem resolveBean_rbspec : ∀ fuel : Nat, RBSpec (resolveBean fuel) := by
  intro fuel
  induction fuel with
  | zero => intro c i c' h; cases h
  | succ fuel ih =>
    intro c i c' h
    rw [resolveBean] at h
    split at h
    · rename_i hget
      injection h with h
      injection h with h
      rw [← h]
      exact rbinv_id (Or.inr hget)
    · rename_i b hget
      split at h
      · rename_i hge
        injection h with h
        injection h with h
        rw [← h]
        exact rbinv_id (Or.inl ⟨b, hget, hge⟩)
      · rename_i hge
        have hnge : b.status.ge .StatusResolving = false := by
          simpa using hge
        split at h
        · cases h
        · cases h
        · rename_i c2 hev
          injection h with h
          injection h with h
          rw [← h]
          exact rbinv_sandwich hget hnge (evalCondsFn_ok ih _ _ _ _ hev)
            (Or.inr rfl)
        · rename_i c2 hev
          injection h with h
          injection h with h
          rw [← h]
          exact rbinv_sandwich hget hnge (evalCondsFn_ok ih _ _ _ _ hev)
            (Or.inl rfl)

/-! ### Fuel sufficiency: the recursion of `resolveBean`, `Find` and
condition evaluation always terminates, with depth bounded by the number of
beans still at `StatusDefault`. -/

theorem dflt_setStatus_le {c : Ctr} {i : Nat} {s : BeanStatus}
    (hs : s ≠ .StatusDefault) : dflt (setStatus c i s) ≤ dflt c := by
  refine dflt_le_of_pointwise (setStatus_length c i s) ?_
  intro j hj
  by_cases hij : i = j
  · subst hij
    cases hg : c.get? i with
    | none => rw [setStatus_none s hg] at hj; exact hj
    | some b =>
      rw [statusAt_setStatus_self s hg] at hj
      injection hj with hj
      exact absurd hj hs
  · rw [statusAt_setStatus_other s hij] at hj
    exact hj

theorem dflt_setStatus_lt {c : Ctr} {i : Nat} {s : BeanStatus}
    (hs : s ≠ .StatusDefault) (hi : statusAt c i = some .StatusDefault) :
    dflt (setStatus c i s) < dflt c := by
  have hg : ∃ b, c.get? i = some b := by
    unfold statusAt at hi
    cases hgg : c.get? i with
    | none => rw [hgg] at hi; cases hi
    | some b => exact ⟨b, rfl⟩
  rcases hg with ⟨b, hb⟩
  refine dflt_lt_of_pointwise (setStatus_length c i s) ?_ hi ?_
  · intro j hj
    by_cases hij : i = j
    · subst hij
      exact hi
    · rw [statusAt_setStatus_other s hij] at hj
      exact hj
  · rw [statusAt_setStatus_self s hb]
    intro hc
    injection hc with hc
    exact hs hc

theorem findAuxFn_total {rb : Ctr → Nat → Option (Except GoErr Ctr)}
    (hrb : RBSpec rb) (F : Nat)
    (hT : ∀ c j b, c.get? j = some b → b.status = .StatusDefault →
      dflt c + 1 ≤ F → rb c j ≠ none)
    (hTriv : ∀ c j b, c.get? j = some b → b.status.ge .StatusResolving = true →
      dflt c + 1 ≤ F → rb c j = some (.ok c)) :
    ∀ (idxs : List Nat) (c : Ctr) (t : Option Nat) (n : String)
      (acc : List Nat), dflt c + 1 ≤ F →
      findAuxFn rb c t n idxs acc ≠ none := by
  intro idxs
  induction idxs with
  | nil =>
    intro c t n acc _ heq
    rw [findAuxFn] at heq
    cases heq
  | cons j rest ih =>
    intro c t n acc hbound heq
    rw [findAuxFn] at heq
    split at heq
    · exact ih _ _ _ _ hbound heq
    · rename_i b hget
      split at heq
      · exact ih _ _ _ _ hbound heq
      · rename_i hskip
        split at heq
        · exact ih _ _ _ _ hbound heq
        · rename_i hmat
          have hnotres : b.status ≠ .StatusResolving := by
            intro hc; simp [hc] at hskip
          have hnotdel : b.status ≠ .StatusDeleted := by
            intro hc; simp [hc] at hskip
          have hcases : rb c j = none → False := by
            intro hnone
            by_cases hdef : b.status = .StatusDefault
            · exact hT c j b hget hdef hbound hnone
            · have hge := status_other_ge_resolving hnotres hnotdel hdef
              rw [hTriv c j b hget hge hbound] at hnone
              cases hnone
          split at heq
          · exact hcases (by assumption)
          · cases heq
          · rename_i c2 hrbcall
            have hnd : statusAt c j ≠ some .StatusDeleted := by
              rw [statusAt_eq, hget]
              intro hc
              exact hnotdel (by simpa using hc)
            have hd2 : dflt c2 ≤ dflt c := rbInv_dflt_le (hrb _ _ _ hrbcall)
            have hbound2 : dflt c2 + 1 ≤ F := by omega
            split at heq
            · exact ih _ _ _ _ hbound2 heq
            · split at heq
              · exact ih _ _ _ _ hbound2 heq
              · exact ih _ _ _ _ hbound2 heq

theorem condMatchesFn_total {rb : Ctr → Nat → Option (Except GoErr Ctr)}
    (hrb : RBSpec rb) (F : Nat)
    (hT : ∀ c j b, c.get? j = some b → b.status = .StatusDefault →
      dflt c + 1 ≤ F → rb c j ≠ none)
    (hTriv : ∀ c j b, c.get? j = some b → b.status.ge .StatusResolving = true →
      dflt c + 1 ≤ F → rb c j = some (.ok c))
    {c : Ctr} {cond : Cond} (hbound : dflt c + 1 ≤ F) :
    condMatchesFn rb c cond ≠ none := by
  intro heq
  rw [condMatchesFn.eq_def] at heq
  cases cond with
  | res descr r =>
    cases r with
    | ok b => simp only at heq; cases heq
    | error m => simp only at heq; cases heq
  | onBeanID t n =>
    simp only at heq
    split at heq
    · rename_i hfind
      exact findAuxFn_total hrb F hT hTriv _ _ _ _ _ hbound hfind
    · cases heq
    · cases heq

theorem evalCondsFn_total {rb : Ctr → Nat → Option (Except GoErr Ctr)}
    (hrb : RBSpec rb) (F : Nat)
    (hT : ∀ c j b, c.get? j = some b → b.status = .StatusDefault →
      dflt c + 1 ≤ F → rb c j ≠ none)
    (hTriv : ∀ c j b, c.get? j = some b → b.status.ge .StatusResolving = true →
      dflt c + 1 ≤ F → rb c j = some (.ok c)) :
    ∀ (conds : List Cond) (c : Ctr), dflt c + 1 ≤ F →
      evalCondsFn rb c conds ≠ none := by
  intro conds
  induction conds with
  | nil => intro c _ heq; rw [evalCondsFn] at heq; cases heq
  | cons cond rest ih =>
    intro c hbound heq
    rw [evalCondsFn] at heq
    split at heq
    · rename_i hcm
      exact condMatchesFn_total hrb F hT hTriv hbound hcm
    · cases heq
    · cases heq
    · rename_i c2 hcm
      have hd2 : dflt c2 ≤ dflt c :=
        innerInv_dflt_le (condMatchesFn_ok hrb hcm)
      exact ih _ (by omega) heq

theorem resolveBean_triv {fuel : Nat} {c : Ctr} {j : Nat} {b : Bean}
    (hget : c.get? j = some b) (hge : b.status.ge .StatusResolving = true) :
    resolveBean (fuel + 1) c j = some (.ok c) := by
  rw [resolveBean, hget]
  simp [hge]

theorem resolveBean_total : ∀ (fuel : Nat) (c : Ctr) (i : Nat),
    (dflt c + 2 ≤ fuel → resolveBean fuel c i ≠ none) ∧
    (∀ b, c.get? i = some b → b.status = .StatusDefault →
      dflt c + 1 ≤ fuel → resolveBean fuel c i ≠ none) := by
  intro fuel
  induction fuel with
  | zero =>
    intro c i
    constructor
    · intro h; omega
    · intro b _ _ h; omega
  | succ fuel ih =>
    intro c i
    have hT : ∀ c j b, c.get? j = some b → b.status = .StatusDefault →
        dflt c + 1 ≤ fuel → resolveBean fuel c j ≠ none := by
      intro c j b hg hd hb
      exact (ih c j).2 b hg hd hb
    have hTriv : ∀ c j b, c.get? j = some b →
        b.status.ge .StatusResolving = true → dflt c + 1 ≤ fuel →
        resolveBean fuel c j = some (.ok c) := by
      intro c j b hg hge hb
      cases fuel with
      | zero => omega
      | succ f => exact resolveBean_triv hg hge
    have hspec := resolveBean_rbspec fuel
    have main : ∀ b, c.get? i = some b →
        b.status.ge .StatusResolving = false →
        dflt (setStatus c i .StatusResolving) + 1 ≤ fuel →
        resolveBean (fuel + 1) c i ≠ none := by
      intro b hget hnge hbound heq
      rw [resolveBean, hget] at heq
      dsimp only at heq
      rw [if_neg (by rw [hnge]; exact Bool.false_ne_true)] at heq
      split at heq
      · rename_i hev
        exact evalCondsFn_total hspec fuel hT hTriv _ _ hbound hev
      · cases heq
      · cases heq
      · cases heq
    constructor
    · intro hbound heq
      cases hget : c.get? i with
      | none => rw [resolveBean, hget] at heq; cases heq
      | some b =>
        cases hge : b.status.ge .StatusResolving with
        | true =>
          rw [resolveBean_triv hget hge] at heq
          cases heq
        | false =>
          have hd1 : dflt (setStatus c i .StatusResolving) ≤ dflt c :=
            dflt_setStatus_le (by intro hc; cases hc)
          exact main b hget hge (by omega) heq
    · intro b hget hdef hbound heq
      have hnge : b.status.ge .StatusResolving = false := by
        rw [hdef]; rfl
      have hstat : statusAt c i = some .StatusDefault := by
        unfold statusAt
        rw [hget]
        simp [hdef]
      have hd1 : dflt (setStatus c i .StatusResolving) < dflt c :=
        dflt_setStatus_lt (by intro hc; cases hc) hstat
      exact main b hget hnge (by omega) heq


/-! ### Properties of the beans `Find` returns -/

theorem findAuxFn_found {rb : Ctr → Nat → Option (Except GoErr Ctr)}
    (hrb : RBSpec rb) :
    ∀ (idxs : List Nat) (c : Ctr) (t : Option Nat) (n : String)
      (acc found : List Nat) (c' : Ctr),
      findAuxFn rb c t n idxs acc = some (.ok (found, c')) →
      ∀ j, j ∈ found → j ∈ acc ∨
        (statusAt c j ≠ some .StatusResolving ∧
          ∃ b', c'.get? j = some b' ∧ isBeanMatched t n b' = true ∧
            b'.status.ge .StatusResolved = true) := by
  intro idxs
  induction idxs with
  | nil =>
    intro c t n acc found c' h j hj
    rw [findAuxFn] at h
    injection h with h
    injection h with h
    injection h with h1 h2
    left
    rw [← h1] at hj
    exact List.mem_reverse.mp hj
  | cons k rest ih =>
    intro c t n acc found c' h j hj
    rw [findAuxFn] at h
    split at h
    · exact ih _ _ _ _ _ _ h j hj
    · rename_i b hget
      split at h
      · exact ih _ _ _ _ _ _ h j hj
      · rename_i hskip
        split at h
        · exact ih _ _ _ _ _ _ h j hj
        · rename_i hmatn
          have hmat : isBeanMatched t n b = true := by
            simpa using hmatn
          split at h
          · cases h
          · cases h
          · rename_i c2 hrbcall
            have hrbinv := hrb _ _ _ hrbcall
            have hnotres : b.status ≠ .StatusResolving := by
              intro hc; simp [hc] at hskip
            have hnotdel : b.status ≠ .StatusDeleted := by
              intro hc; simp [hc] at hskip
            have hnd : statusAt c k ≠ some .StatusDeleted := by
              rw [statusAt_eq, hget]
              intro hc
              exact hnotdel (by simpa using hc)
            have hin : InnerInv c c2 := rbInv_toInner hrbinv hnd
            have pull : ∀ (x : Nat), statusAt c2 x ≠ some .StatusResolving →
                statusAt c x ≠ some .StatusResolving := by
              intro x hx hcx
              exact hx (hin.resolvingKeep x hcx)
            split at h
            · rcases ih _ _ _ _ _ _ h j hj with hacc | ⟨hres2, props⟩
              · exact Or.inl hacc
              · exact Or.inr ⟨pull j hres2, props⟩
            · rename_i b2 hget2
              split at h
              · rcases ih _ _ _ _ _ _ h j hj with hacc | ⟨hres2, props⟩
                · exact Or.inl hacc
                · exact Or.inr ⟨pull j hres2, props⟩
              · rename_i hb2del
                have hb2notdel : b2.status ≠ .StatusDeleted := by
                  intro hc; simp [hc] at hb2del
                rcases ih _ _ _ _ _ _ h j hj with hacc | ⟨hres2, props⟩
                · rcases List.mem_cons.mp hacc with rfl | hacc2
                  · right
                    refine ⟨?_, ?_⟩
                    · rw [statusAt_eq, hget]
                      intro hc
                      exact hnotres (by simpa using hc)
                    · have hge2 : b2.status.ge .StatusResolved = true := by
                        rcases hrbinv.target with ⟨bb, hgetbb, hgebb, hceq⟩ |
                          ⟨hnone, _⟩ | hres | hdel
                        · rw [hceq, hget] at hget2
                          have hb2e : b2.status = b.status :=
                            congrArg Bean.status (Option.some.inj hget2).symm
                          rw [hget] at hgetbb
                          have hbbe : bb.status = b.status :=
                            congrArg Bean.status (Option.some.inj hgetbb).symm
                          rw [hb2e]
                          rw [hbbe] at hgebb
                          exact status_ge_resolving_ne_resolving hgebb hnotres
                        · rw [hget] at hnone; cases hnone
                        · rw [statusAt_eq, hget2] at hres
                          have : b2.status = .StatusResolved := by
                            simpa using hres
                          rw [this]
                          rfl
                        · rw [statusAt_eq, hget2] at hdel
                          have : b2.status = .StatusDeleted := by
                            simpa using hdel
                          exact absurd this hb2notdel
                      have hmat2 : isBeanMatched t n b2 = true := by
                        have hsh := hrbinv.shape j
                        unfold shapeAt at hsh
                        rw [hget, hget2] at hsh
                        have : Bean.shape b2 = Bean.shape b := by
                          simpa using hsh
                        rw [isBeanMatched_shape this, hmat]
                      have htail : InnerInv c2 c' :=
                        findAuxFn_ok hrb _ _ _ _ _ _ _ h
                      exact matcher_transport_at htail hget2 hmat2 hge2
                  · exact Or.inl hacc2
                · exact Or.inr ⟨pull j hres2, props⟩


/-! ### Preservation of status ranges through the refresh phases -/

theorem statusAt_some_get {c : Ctr} {j : Nat} {s : BeanStatus}
    (h : statusAt c j = some s) : ∃ b, c.get? j = some b ∧ b.status = s := by
  unfold statusAt at h
  cases hg : c.get? j with
  | none => rw [hg] at h; cases h
  | some b =>
    rw [hg] at h
    exact ⟨b, rfl, by simpa using h⟩

theorem innerInv_noResolving {c c' : Ctr} (h : InnerInv c c')
    (hnr : NoResolving c) : NoResolving c' := by
  intro j hj
  exact hnr j (h.resolvingNew j hj)

theorem rbInv_noResolving {i : Nat} {c c' : Ctr} (h : RBInv i c c')
    (hnr : NoResolving c) : NoResolving c' := by
  intro j hj
  exact hnr j (h.resolvingNew j hj)

theorem goodRange_of_upward {c c' : Ctr}
    (hup : ∀ j, statusAt c' j = statusAt c j ∨
      statusAt c' j = some .StatusResolving ∨
      statusAt c' j = some .StatusResolved ∨
      statusAt c' j = some .StatusDeleted)
    (hgr : GoodRange c) : GoodRange c' := by
  intro j b hget
  have hst : statusAt c' j = some b.status := by
    rw [statusAt_eq, hget]; rfl
  rcases hup j with hu | hu | hu | hu
  · rw [hst] at hu
    rcases statusAt_some_get hu.symm with ⟨b0, hb0, hb0s⟩
    rcases hgr j b0 hb0 with h1 | h1 | h1 | h1 <;> rw [← hb0s, h1] <;> simp
  all_goals
    rw [hst] at hu
    injection hu with hu
    simp [hu]

theorem innerInv_goodRange {c c' : Ctr} (h : InnerInv c c')
    (hgr : GoodRange c) : GoodRange c' := goodRange_of_upward h.upward hgr

theorem rbInv_goodRange {i : Nat} {c c' : Ctr} (h : RBInv i c c')
    (hgr : GoodRange c) : GoodRange c' := goodRange_of_upward h.upward hgr

theorem rbInv_finalOK {i : Nat} {c c' : Ctr} (h : RBInv i c c') (j : Nat)
    (hf : FinalOK c j) : FinalOK c' j := by
  rcases hf with hf | hf
  · left
    exact h.frozenHi j .StatusResolved hf rfl
  · by_cases hij : j = i
    · subst hij
      rcases h.target with ⟨b, hget, hge, hceq⟩ | ⟨hnone, hceq⟩ | ht | ht
      · rcases statusAt_some_get hf with ⟨b0, hb0, hb0s⟩
        rw [hget] at hb0
        have : b.status = .StatusDeleted := by
          rw [← (Option.some.inj hb0)] at hb0s
          exact hb0s
        rw [this] at hge
        cases hge
      · rw [statusAt_eq, hnone] at hf
        cases hf
      · exact Or.inl ht
      · exact Or.inr ht
    · exact Or.inr (h.deletedKeep j hij hf)

theorem rbInv_target_final {i : Nat} {c c' : Ctr} (h : RBInv i c c')
    (hnr : NoResolving c) (hgr : GoodRange c) (hlt : i < c.length) :
    FinalOK c' i := by
  rcases h.target with ⟨b, hget, hge, hceq⟩ | ⟨hnone, _⟩ | ht | ht
  · subst hceq
    have hne : b.status ≠ .StatusResolving := by
      intro hc
      exact hnr i (by rw [statusAt_eq, hget]; simp [hc])
    have hger := status_ge_resolving_ne_resolving hge hne
    rcases status_ge_resolved_cases hger with ⟨h1, h2, h3⟩
    rcases hgr i b hget with h4 | h4 | h4 | h4
    · exact absurd h4 h1
    · exact absurd h4 h3
    · left
      rw [statusAt_eq, hget]
      simp [h4]
    · exact absurd h4 h2
  · rcases List.get?_eq_some.mpr ⟨hlt, rfl⟩ with hsome
    rw [hsome] at hnone
    cases hnone
  · exact Or.inl ht
  · exact Or.inr ht

theorem resolveBeansAux_final {fuel : Nat} :
    ∀ (idxs : List Nat) (c c' : Ctr),
      resolveBeansAux fuel c idxs = some (.ok c') →
      NoResolving c → GoodRange c →
      NoResolving c' ∧ GoodRange c' ∧ c'.length = c.length ∧
      (∀ j, FinalOK c j → FinalOK c' j) ∧
      (∀ i ∈ idxs, i < c.length → FinalOK c' i) := by
  intro idxs
  induction idxs with
  | nil =>
    intro c c' h hnr hgr
    rw [resolveBeansAux] at h
    injection h with h
    injection h with h
    rw [← h]
    exact ⟨hnr, hgr, rfl, fun _ hf => hf, fun i hi => absurd hi (List.not_mem_nil i)⟩
  | cons k rest ih =>
    intro c c' h hnr hgr
    rw [resolveBeansAux] at h
    split at h
    · cases h
    · cases h
    · rename_i c2 hrbcall
      have hinv : RBInv k c c2 := resolveBean_rbspec fuel c k c2 hrbcall
      have hnr2 : NoResolving c2 := rbInv_noResolving hinv hnr
      have hgr2 : GoodRange c2 := rbInv_goodRange hinv hgr
      rcases ih c2 c' h hnr2 hgr2 with ⟨hnr', hgr', hlen', hkeep', hall'⟩
      refine ⟨hnr', hgr', hlen'.trans hinv.len, ?_, ?_⟩
      · intro j hf
        exact hkeep' j (rbInv_finalOK hinv j hf)
      · intro i hi hlt
        rcases List.mem_cons.mp hi with rfl | hmem
        · exact hkeep' i (rbInv_target_final hinv hnr hgr hlt)
        · refine hall' i hmem ?_
          rw [hinv.len]
          exact hlt

theorem mem_of_get?_append {c ds : Ctr} {j : Nat} {b : Bean}
    (h : (c ++ ds).get? j = some b) : c.get? j = some b ∨ b ∈ ds := by
  by_cases hlt : j < c.length
  · left
    rw [List.get?_append hlt] at h
    exact h
  · right
    have hle : c.length ≤ j := Nat.le_of_not_lt hlt
    rw [List.get?_append_right hle] at h
    exact List.get?_mem h

theorem noResolving_append {c : Ctr} {ds : List Bean}
    (hnr : NoResolving c) (hds : ∀ b ∈ ds, b.status = .StatusDefault) :
    NoResolving (c ++ ds) := by
  intro j hj
  rcases statusAt_some_get hj with ⟨b, hget, hbs⟩
  rcases mem_of_get?_append hget with hc | hmem
  · exact hnr j (by rw [statusAt_eq, hc]; simp [hbs])
  · rw [hds b hmem] at hbs
    cases hbs

theorem goodRange_append {c : Ctr} {ds : List Bean}
    (hgr : GoodRange c) (hds : ∀ b ∈ ds, b.status = .StatusDefault) :
    GoodRange (c ++ ds) := by
  intro j b hget
  rcases mem_of_get?_append hget with hc | hmem
  · exact hgr j b hc
  · exact Or.inl (hds b hmem)

theorem applyModules_good :
    ∀ (modules : List GsModule) (c c' : Ctr),
      applyModules modules c = .ok c' → NoResolving c → GoodRange c →
      NoResolving c' ∧ GoodRange c' := by
  intro modules
  induction modules with
  | nil =>
    intro c c' h hnr hgr
    rw [applyModules] at h
    injection h with h
    rw [← h]
    exact ⟨hnr, hgr⟩
  | cons m ms ih =>
    intro c c' h hnr hgr
    rw [applyModules] at h
    split at h
    · rename_i cond
      split at h
      · cases h
      · cases h
      · rename_i c1 hcm
        have hin : InnerInv c c1 :=
          condMatchesFn_ok (resolveBean_rbspec _) hcm
        exact ih c1 c' h (innerInv_noResolving hin hnr)
          (innerInv_goodRange hin hgr)
      · rename_i c1 hcm
        have hin : InnerInv c c1 :=
          condMatchesFn_ok (resolveBean_rbspec _) hcm
        split at h
        · cases h
        · rename_i pbs _
          have hds : ∀ b ∈ pbs.map PBean.toBean, b.status = .StatusDefault := by
            intro b hb
            rcases List.mem_map.mp hb with ⟨p, _, rfl⟩
            rfl
          exact ih _ c' h
            (noResolving_append (innerInv_noResolving hin hnr) hds)
            (goodRange_append (innerInv_goodRange hin hgr) hds)
    · split at h
      · cases h
      · rename_i pbs _
        have hds : ∀ b ∈ pbs.map PBean.toBean, b.status = .StatusDefault := by
          intro b hb
          rcases List.mem_map.mp hb with ⟨p, _, rfl⟩
          rfl
        exact ih _ c' h (noResolving_append hnr hds) (goodRange_append hgr hds)

theorem scanConfiguration_children_default {w : World} {bd : Bean}
    {param : Configuration} {beans : List Bean}
    (h : scanConfiguration w bd param = .ok beans) :
    ∀ b ∈ beans, b.status = .StatusDefault := by
  unfold scanConfiguration at h
  split at h
  · cases h
  · split at h
    · cases h
    · injection h with h
      intro b hb
      rw [← h] at hb
      rcases List.mem_filterMap.mp hb with ⟨m, _, hm⟩
      split at hm
      · cases hm
      · split at hm
        · injection hm with hm
          rw [← hm]
          rfl
        · cases hm

theorem scanConfigurations_good {w : World} :
    ∀ (bds : List Bean) (acc c' : Ctr),
      scanConfigurations w acc bds = .ok c' → NoResolving acc →
      GoodRange acc → NoResolving c' ∧ GoodRange c' := by
  intro bds
  induction bds with
  | nil =>
    intro acc c' h hnr hgr
    rw [scanConfigurations] at h
    injection h with h
    rw [← h]
    exact ⟨hnr, hgr⟩
  | cons bd rest ih =>
    intro acc c' h hnr hgr
    rw [scanConfigurations] at h
    split at h
    · exact ih acc c' h hnr hgr
    · rename_i param
      split at h
      · cases h
      · rename_i beans hscan
        exact ih _ c' h
          (noResolving_append hnr (scanConfiguration_children_default hscan))
          (goodRange_append hgr (scanConfiguration_children_default hscan))


/-! ### Claim C1 -/

/-- C1: for every bean definition registered in a Resolving container, after
`Refresh` returns nil (successful resolution), the bean's status is either
`StatusResolved` or `StatusDeleted`; no bean is left at `StatusDefault` or
`StatusResolving`. -/
theorem refresh_leaves_only_resolved_or_deleted
    (w : World) (modules : List GsModule) (initBeans : List PBean)
    (r r' : Resolving)
    (hdef : ∀ b ∈ r.beans, b.status = .StatusDefault)
    (h : Refresh w modules initBeans r = (r', .ok ())) :
    ∀ b ∈ r'.beans, b.status = .StatusResolved ∨ b.status = .StatusDeleted := by
  unfold Refresh at h
  split at h
  · injection h with h1 h2
    cases h2
  · have hall0 : ∀ b ∈ initBeans.map PBean.toBean ++ r.beans,
        b.status = .StatusDefault := by
      intro b hb
      rcases List.mem_append.mp hb with hb | hb
      · rcases List.mem_map.mp hb with ⟨p, _, rfl⟩
        rfl
      · exact hdef b hb
    have hnr0 : NoResolving (initBeans.map PBean.toBean ++ r.beans) := by
      intro j hj
      rcases statusAt_some_get hj with ⟨b, hget, hbs⟩
      rw [hall0 b (List.get?_mem hget)] at hbs
      cases hbs
    have hgr0 : GoodRange (initBeans.map PBean.toBean ++ r.beans) := by
      intro j b hget
      exact Or.inl (hall0 b (List.get?_mem hget))
    split at h
    · injection h with h1 h2; cases h2
    · rename_i c1 hmods
      rcases applyModules_good _ _ _ hmods hnr0 hgr0 with ⟨hnr1, hgr1⟩
      split at h
      · injection h with h1 h2; cases h2
      · rename_i c2 hscan
        rcases scanConfigurations_good _ _ _ hscan hnr1 hgr1 with ⟨hnr2, hgr2⟩
        split at h
        · injection h with h1 h2; cases h2
        · injection h with h1 h2; cases h2
        · rename_i c3 hres
          split at h
          · injection h with h1 h2; cases h2
          · injection h with h1 h2
            rcases resolveBeansAux_final _ _ _ hres hnr2 hgr2 with
              ⟨hnr3, hgr3, hlen3, hkeep3, hall3⟩
            intro b hb
            rw [← h1] at hb
            rcases List.get?_of_mem hb with ⟨i, hgi⟩
            have hlt3 : i < c3.length := by
              rcases List.get?_eq_some.mp hgi with ⟨hl, _⟩
              exact hl
            have hlt2 : i < c2.length := by rw [← hlen3]; exact hlt3
            have hfin : FinalOK c3 i :=
              hall3 i (List.mem_range.mpr hlt2) hlt2
            rcases hfin with hf | hf
            · left
              rw [statusAt_eq, hgi] at hf
              simpa using hf
            · right
              rw [statusAt_eq, hgi] at hf
              simpa using hf

/-- Witness for C1 at a concrete container: a two-bean cyclically dependent
container refreshes successfully, and the first bean (which ends
`StatusDeleted`) is indeed at a terminal status. -/
theorem refresh_leaves_only_resolved_or_deleted_witness :
    ({ name := "a", typ := 1, exports := [], status := .StatusDeleted
       conds := [.onBeanID (some 2) ""], configuration := none
       fileLine := "a.go:1" } : Bean).status = .StatusResolved ∨
    ({ name := "a", typ := 1, exports := [], status := .StatusDeleted
       conds := [.onBeanID (some 2) ""], configuration := none
       fileLine := "a.go:1" } : Bean).status = .StatusDeleted := by
  refine refresh_leaves_only_resolved_or_deleted
    { compile := fun _ => .ok (fun _ => false), methodsOf := fun _ => [] }
    [] []
    { state := .RefreshDefault
      beans := [
        { name := "a", typ := 1, exports := [], status := .StatusDefault
          conds := [.onBeanID (some 2) ""], configuration := none
          fileLine := "a.go:1" },
        { name := "b", typ := 2, exports := [], status := .StatusDefault
          conds := [.onBeanID (some 1) ""], configuration := none
          fileLine := "b.go:1" }] }
    { state := .Refreshed
      beans := [
        { name := "a", typ := 1, exports := [], status := .StatusDeleted
          conds := [.onBeanID (some 2) ""], configuration := none
          fileLine := "a.go:1" },
        { name := "b", typ := 2, exports := [], status := .StatusDeleted
          conds := [.onBeanID (some 1) ""], configuration := none
          fileLine := "b.go:1" }] }
    ?_ rfl _ (List.mem_cons_self _ _)
  intro b hb
  simp only [List.mem_cons, List.not_mem_nil, or_false] at hb
  rcases hb with rfl | rfl <;> rfl


/-! ### Claim C6 -/

theorem refresh_state_ne_default {w : World} {ms : List GsModule}
    {ibs : List PBean} {r : Resolving} (hr : r.state = .RefreshDefault) :
    (Refresh w ms ibs r).1.state ≠ .RefreshDefault := by
  unfold Refresh
  rw [if_neg (by rw [hr]; simp)]
  split
  · intro hc; cases hc
  · split
    · intro hc; cases hc
    · split
      · intro hc; cases hc
      · intro hc; cases hc
      · split
        · intro hc; cases hc
        · intro hc; cases hc

/-- C6: calling `Refresh` on a container whose state is not the initial
default state returns the explicit error "container is already refreshing or
refreshed" and leaves the container untouched; in particular, after any first
`Refresh` call on a fresh container — whether it succeeded or failed partway
— a second call returns that error rather than silently doing nothing. -/
theorem second_refresh_returns_error :
    (∀ (w : World) (ms : List GsModule) (ibs : List PBean) (r : Resolving),
      r.state ≠ .RefreshDefault →
      Refresh w ms ibs r =
        (r, .error (.msg "container is already refreshing or refreshed"))) ∧
    (∀ (w w2 : World) (ms ms2 : List GsModule) (ibs ibs2 : List PBean)
      (r : Resolving), r.state = .RefreshDefault →
      (Refresh w2 ms2 ibs2 (Refresh w ms ibs r).1).2 =
        .error (.msg "container is already refreshing or refreshed")) := by
  have part1 : ∀ (w : World) (ms : List GsModule) (ibs : List PBean)
      (r : Resolving), r.state ≠ .RefreshDefault →
      Refresh w ms ibs r =
        (r, .error (.msg "container is already refreshing or refreshed")) := by
    intro w ms ibs r hr
    unfold Refresh
    rw [if_pos (by simpa using hr)]
  refine ⟨part1, ?_⟩
  intro w w2 ms ms2 ibs ibs2 r hr
  rw [part1 w2 ms2 ibs2 _ (refresh_state_ne_default hr)]

/-- Witness for C6: a concrete first refresh of an empty fresh container
followed by a second call, and a direct call on an already-refreshed
container. -/
theorem second_refresh_returns_error_witness :
    (Refresh
        { compile := fun _ => .ok (fun _ => false), methodsOf := fun _ => [] }
        [] [] ({ state := .Refreshed, beans := [] } : Resolving) =
      ({ state := .Refreshed, beans := [] },
        .error (.msg "container is already refreshing or refreshed"))) ∧
    ((Refresh
        { compile := fun _ => .ok (fun _ => false), methodsOf := fun _ => [] }
        [] []
        (Refresh
          { compile := fun _ => .ok (fun _ => false), methodsOf := fun _ => [] }
          [] [] ({ state := .RefreshDefault, beans := [] } : Resolving)).1).2 =
      .error (.msg "container is already refreshing or refreshed")) := by
  constructor
  · exact second_refresh_returns_error.1 _ _ _ _ (by intro hc; cases hc)
  · exact second_refresh_returns_error.2 _ _ _ _ _ _ _ rfl


/-! ### Claims C7 and C10 -/

theorem onOnceRun_state (condResults : Nat → List MatchOutcome) :
    ∀ n, (onOnceRun condResults n).2 =
      { done := true, result := (andMatches (condResults 0)).1 } := by
  intro n
  induction n with
  | zero =>
    rw [onOnceRun]
    unfold onOnceMatches
    rfl
  | succ n ih =>
    rw [onOnceRun]
    unfold onOnceMatches
    rw [ih]
    rfl

/-- C7: the first `Matches` call of an `OnOnce` condition evaluates the
wrapped conditions (AND-combined) and returns that outcome; every later call
returns the first evaluation's boolean with no error; and later calls do not
re-evaluate the wrapped conditions — the whole call sequence depends only on
the outcomes of the wrapped conditions at the first call. -/
theorem onOnce_memoizes_first_result
    (condResults condResults2 : Nat → List MatchOutcome) (n : Nat) :
    ((onOnceRun condResults 0).1 = andMatches (condResults 0)) ∧
    (1 ≤ n → (onOnceRun condResults n).1 =
      ((andMatches (condResults 0)).1, none)) ∧
    (condResults2 0 = condResults 0 →
      onOnceRun condResults2 n = onOnceRun condResults n) := by
  refine ⟨?_, ?_, ?_⟩
  · rw [onOnceRun]
    unfold onOnceMatches
    rfl
  · intro hn
    cases n with
    | zero => omega
    | succ m =>
      rw [onOnceRun, onOnceRun_state]
      unfold onOnceMatches
      rfl
  · intro h0
    induction n with
    | zero => rw [onOnceRun, onOnceRun, h0]
    | succ m ih =>
      rw [onOnceRun, onOnceRun, ih, onOnceRun_state]
      unfold onOnceMatches
      rfl

/-- Witness for C7: a wrapped condition that alternates true/false across
calls — the second and third calls both return the first call's `true` with
no error. -/
theorem onOnce_memoizes_first_result_witness :
    ((onOnceRun (fun k => [(k % 2 == 0, none)]) 0).1 = (true, none)) ∧
    ((onOnceRun (fun k => [(k % 2 == 0, none)]) 1).1 = (true, none)) ∧
    ((onOnceRun (fun k => [(k % 2 == 0, none)]) 2).1 = (true, none)) := by
  refine ⟨?_, ?_, ?_⟩
  · exact (onOnce_memoizes_first_result
      (fun k => [(k % 2 == 0, none)]) (fun k => [(k % 2 == 0, none)]) 0).1
  · exact (onOnce_memoizes_first_result
      (fun k => [(k % 2 == 0, none)]) (fun k => [(k % 2 == 0, none)]) 1).2.1
      (by omega)
  · exact (onOnce_memoizes_first_result
      (fun k => [(k % 2 == 0, none)]) (fun k => [(k % 2 == 0, none)]) 2).2.1
      (by omega)

/-- C10: when the first evaluation of an `OnOnce` condition returns an error,
the `done` flag is still set (with the boolean returned alongside the error
memoized), so the error is reported exactly once: every later call returns
that boolean with a nil error and never re-evaluates the wrapped
conditions. -/
theorem onOnce_error_reported_once
    (condResults : Nat → List MatchOutcome) (b : Bool) (e : String) (n : Nat)
    (hfirst : andMatches (condResults 0) = (b, some e)) :
    (onOnceRun condResults 0).1 = (b, some e) ∧
    (onOnceRun condResults 0).2 = { done := true, result := b } ∧
    (1 ≤ n → (onOnceRun condResults n).1 = (b, none)) := by
  refine ⟨?_, ?_, ?_⟩
  · rw [onOnceRun]
    unfold onOnceMatches
    rw [hfirst]
    rfl
  · rw [onOnceRun_state, hfirst]
  · intro hn
    cases n with
    | zero => omega
    | succ m =>
      rw [onOnceRun, onOnceRun_state, hfirst]
      unfold onOnceMatches
      rfl

/-- Witness for C10: a wrapped condition that errors at the first call — the
error appears once and later calls return `(false, none)`. -/
theorem onOnce_error_reported_once_witness :
    ((onOnceRun (fun _ => [(false, some "boom")]) 0).1 =
      (false, some "boom")) ∧
    ((onOnceRun (fun _ => [(false, some "boom")]) 0).2 =
      { done := true, result := false }) ∧
    ((onOnceRun (fun _ => [(false, some "boom")]) 1).1 = (false, none)) := by
  have h := onOnce_error_reported_once
    (fun _ => [(false, some "boom")]) false "boom" 1 rfl
  exact ⟨h.1, h.2.1, h.2.2 (by omega)⟩


/-! ### Claim C2: duplicate-bean detection -/

theorem idKeys_fst_snd {b : Bean} {k : String × Nat} (h : k ∈ idKeys b) :
    k.1 = b.name ∧ k.2 ∈ b.exports ++ [b.typ] := by
  unfold idKeys at h
  rcases List.mem_map.mp h with ⟨t, ht, rfl⟩
  exact ⟨rfl, ht⟩

theorem mem_idKeys_of {b : Bean} {t : Nat} (h : t ∈ b.exports ++ [b.typ]) :
    (b.name, t) ∈ idKeys b := by
  unfold idKeys
  exact List.mem_map.mpr ⟨t, h, rfl⟩

theorem shareIdentity_of_key {b d : Bean} {k : String × Nat}
    (hb : k ∈ idKeys b) (hd : k ∈ idKeys d) : shareIdentity b d := by
  rcases idKeys_fst_snd hb with ⟨hn1, ht1⟩
  rcases idKeys_fst_snd hd with ⟨hn2, ht2⟩
  exact ⟨hn1 ▸ hn2 ▸ rfl, k.2, ht1, ht2⟩

theorem shareIdentity_symm {b d : Bean} (h : shareIdentity b d) :
    shareIdentity d b := by
  rcases h with ⟨hn, t, h1, h2⟩
  exact ⟨hn.symm, t, h2, h1⟩

theorem idKeys_nodup {b : Bean} (h : (b.exports ++ [b.typ]).Nodup) :
    (idKeys b).Nodup := by
  unfold idKeys
  exact h.map (fun t1 t2 he => congrArg Prod.snd he)

theorem lookupSeen_cons {k' : String × Nat} {j' : Nat}
    {seen : List ((String × Nat) × Nat)} {k : String × Nat} :
    lookupSeen ((k', j') :: seen) k =
      if k' = k then some j' else lookupSeen seen k := by
  unfold lookupSeen
  rw [List.find?_cons]
  by_cases h : k' = k
  · simp [h]
  · have hb : (((k', j')).1 == k) = false := by
      simpa using h
    simp [hb, h]

theorem insertIDs_ok_spec {c : Ctr} {i : Nat} {b : Bean} :
    ∀ (ks : List (String × Nat)) (seen seen' : List ((String × Nat) × Nat)),
      insertIDs c i b ks seen = .ok seen' →
      (∀ k ∈ ks, lookupSeen seen k = none) ∧
      (∀ k j, lookupSeen seen k = some j → lookupSeen seen' k = some j) ∧
      (∀ k ∈ ks, lookupSeen seen' k = some i) ∧
      (∀ k j, lookupSeen seen' k = some j →
        lookupSeen seen k = some j ∨ (j = i ∧ k ∈ ks)) := by
  intro ks
  induction ks with
  | nil =>
    intro seen seen' h
    rw [insertIDs] at h
    injection h with h
    rw [← h]
    exact ⟨fun k hk => absurd hk (List.not_mem_nil k),
      fun k j hkj => hkj,
      fun k hk => absurd hk (List.not_mem_nil k),
      fun k j hkj => Or.inl hkj⟩
  | cons k ks ih =>
    intro seen seen' h
    rw [insertIDs] at h
    split at h
    · cases h
    · rename_i hlook
      rcases ih _ _ h with ⟨ih1, ih2, ih3, ih4⟩
      have hcons : ∀ k', lookupSeen (((k, i)) :: seen) k' =
          if k = k' then some i else lookupSeen seen k' := fun k' =>
        lookupSeen_cons
      refine ⟨?_, ?_, ?_, ?_⟩
      · intro k' hk'
        rcases List.mem_cons.mp hk' with rfl | hmem
        · exact hlook
        · have := ih1 k' hmem
          rw [hcons k'] at this
          split at this
          · cases this
          · exact this
      · intro k' j hkj
        have hne : k ≠ k' := by
          intro he
          rw [he] at hlook
          rw [hlook] at hkj
          cases hkj
        refine ih2 k' j ?_
        rw [hcons k', if_neg hne]
        exact hkj
      · intro k' hk'
        rcases List.mem_cons.mp hk' with rfl | hmem
        · refine ih2 k' i ?_
          rw [hcons k', if_pos rfl]
        · exact ih3 k' hmem
      · intro k' j hkj
        rcases ih4 k' j hkj with hseen | ⟨rfl, hmem⟩
        · rw [hcons k'] at hseen
          split at hseen
          · rename_i he
            injection hseen with hseen
            exact Or.inr ⟨hseen.symm, by rw [← he]; exact List.mem_cons_self _ _⟩
          · exact Or.inl hseen
        · exact Or.inr ⟨rfl, List.mem_cons_of_mem _ hmem⟩

theorem insertIDs_error_spec {c : Ctr} {i : Nat} {b : Bean}
    (hbget : c.get? i = some b) (hblive : b.status ≠ .StatusDeleted) :
    ∀ (ks : List (String × Nat)) (seen : List ((String × Nat) × Nat))
      (err : GoErr),
      insertIDs c i b ks seen = .error err →
      (∀ k j, lookupSeen seen k = some j →
        ∃ bj, c.get? j = some bj ∧ bj.status ≠ .StatusDeleted ∧
          k ∈ idKeys bj) →
      (∀ k, lookupSeen seen k = some i → k ∉ ks) →
      ks.Nodup → (∀ k ∈ ks, k ∈ idKeys b) →
      ∃ j bj k, j ≠ i ∧ c.get? j = some bj ∧ bj.status ≠ .StatusDeleted ∧
        k ∈ ks ∧ k ∈ idKeys bj ∧ err = .msg (dupMsg b bj) := by
  intro ks
  induction ks with
  | nil =>
    intro seen err h _ _ _ _
    rw [insertIDs] at h
    cases h
  | cons k ks ih =>
    intro seen err h hP hno hnd hsub
    rw [insertIDs] at h
    split at h
    · rename_i j hlook
      injection h with h
      rcases hP k j hlook with ⟨bj, hbj, hlive, hkbj⟩
      have hji : j ≠ i := by
        intro he
        rw [he] at hlook
        exact hno k hlook (List.mem_cons_self _ _)
      refine ⟨j, bj, k, hji, hbj, hlive, List.mem_cons_self _ _, hkbj, ?_⟩
      rw [← h, hbj]
      rfl
    · rename_i hlook
      have hcons : ∀ k', lookupSeen (((k, i)) :: seen) k' =
          if k = k' then some i else lookupSeen seen k' := fun k' =>
        lookupSeen_cons
      have hP2 : ∀ k' j, lookupSeen (((k, i)) :: seen) k' = some j →
          ∃ bj, c.get? j = some bj ∧ bj.status ≠ .StatusDeleted ∧
            k' ∈ idKeys bj := by
        intro k' j hkj
        rw [hcons k'] at hkj
        split at hkj
        · rename_i he
          injection hkj with hkj
          rw [← hkj]
          refine ⟨b, hbget, hblive, ?_⟩
          rw [← he]
          exact hsub k (List.mem_cons_self _ _)
        · exact hP k' j hkj
      have hno2 : ∀ k', lookupSeen (((k, i)) :: seen) k' = some i →
          k' ∉ ks := by
        intro k' hk'
        rw [hcons k'] at hk'
        split at hk'
        · rename_i he
          rw [← he]
          exact (List.nodup_cons.mp hnd).1
        · intro hmem
          exact hno k' hk' (List.mem_cons_of_mem _ hmem)
      rcases ih _ _ h hP2 hno2 (List.nodup_cons.mp hnd).2
          (fun k' hk' => hsub k' (List.mem_cons_of_mem _ hk')) with
        ⟨j, bj, k', hji, hbj, hlive, hkmem, hkbj, herr⟩
      exact ⟨j, bj, k', hji, hbj, hlive, List.mem_cons_of_mem _ hkmem,
        hkbj, herr⟩

theorem checkDupAux_ok_no_seen_collision {c : Ctr} :
    ∀ (idxs : List Nat) (seen : List ((String × Nat) × Nat)),
      checkDupAux c idxs seen = .ok () →
      ∀ j bj, j ∈ idxs → c.get? j = some bj → bj.status ≠ .StatusDeleted →
      ∀ k ∈ idKeys bj, lookupSeen seen k = none := by
  intro idxs
  induction idxs with
  | nil =>
    intro seen _ j bj hj
    exact absurd hj (List.not_mem_nil j)
  | cons a rest ih =>
    intro seen h j bj hj hgj hlive k hk
    rw [checkDupAux] at h
    split at h
    · rename_i hga
      rcases List.mem_cons.mp hj with rfl | hmem
      · rw [hga] at hgj; cases hgj
      · exact ih seen h j bj hmem hgj hlive k hk
    · rename_i b hga
      split at h
      · rename_i hdel
        rcases List.mem_cons.mp hj with rfl | hmem
        · rw [hga] at hgj
          injection hgj with hgj
          rw [← hgj] at hlive
          exact absurd (by simpa using hdel) hlive
        · exact ih seen h j bj hmem hgj hlive k hk
      · split at h
        · cases h
        · rename_i seen2 hins
          rcases insertIDs_ok_spec _ _ _ hins with ⟨i1, i2, _, _⟩
          rcases List.mem_cons.mp hj with rfl | hmem
          · rw [hga] at hgj
            injection hgj with hgj
            rw [← hgj] at hk
            exact i1 k hk
          · cases hlk : lookupSeen seen k with
            | none => rfl
            | some j' =>
              have := i2 k j' hlk
              rw [ih seen2 h j bj hmem hgj hlive k hk] at this
              cases this

theorem checkDupAux_ok_no_collision {c : Ctr} :
    ∀ (idxs : List Nat) (seen : List ((String × Nat) × Nat)),
      checkDupAux c idxs seen = .ok () →
      ∀ i j bi bj, i ∈ idxs → j ∈ idxs → i ≠ j →
        c.get? i = some bi → c.get? j = some bj →
        bi.status ≠ .StatusDeleted → bj.status ≠ .StatusDeleted →
        ¬ shareIdentity bi bj := by
  intro idxs
  induction idxs with
  | nil =>
    intro seen _ i j bi bj hi
    exact absurd hi (List.not_mem_nil i)
  | cons a rest ih =>
    intro seen h i j bi bj hi hj hij hgi hgj hli hlj hsh
    rw [checkDupAux] at h
    split at h
    · rename_i hga
      rcases List.mem_cons.mp hi with rfl | hmi
      · rw [hga] at hgi; cases hgi
      · rcases List.mem_cons.mp hj with rfl | hmj
        · rw [hga] at hgj; cases hgj
        · exact ih seen h i j bi bj hmi hmj hij hgi hgj hli hlj hsh
    · rename_i b hga
      split at h
      · rename_i hdel
        rcases List.mem_cons.mp hi with rfl | hmi
        · rw [hga] at hgi
          injection hgi with hgi
          rw [← hgi] at hli
          exact absurd (by simpa using hdel) hli
        · rcases List.mem_cons.mp hj with rfl | hmj
          · rw [hga] at hgj
            injection hgj with hgj
            rw [← hgj] at hlj
            exact absurd (by simpa using hdel) hlj
          · exact ih seen h i j bi bj hmi hmj hij hgi hgj hli hlj hsh
      · split at h
        · cases h
        · rename_i seen2 hins
          rcases insertIDs_ok_spec _ _ _ hins with ⟨_, _, i3, _⟩
          rcases List.mem_cons.mp hi with rfl | hmi
          · rcases List.mem_cons.mp hj with rfl | hmj
            · exact hij rfl
            · rw [hga] at hgi
              injection hgi with hgi
              rcases hsh with ⟨hn, t, ht1, ht2⟩
              have hkey1 : (bi.name, t) ∈ idKeys bi := mem_idKeys_of ht1
              have hkey2 : (bi.name, t) ∈ idKeys bj := by
                rw [hn]; exact mem_idKeys_of ht2
              have hlk : lookupSeen seen2 (bi.name, t) = some i := by
                refine i3 _ ?_
                rw [hgi]
                exact hkey1
              rw [checkDupAux_ok_no_seen_collision rest seen2 h j bj hmj hgj
                hlj _ hkey2] at hlk
              cases hlk
          · rcases List.mem_cons.mp hj with rfl | hmj
            · rw [hga] at hgj
              injection hgj with hgj
              rcases hsh with ⟨hn, t, ht1, ht2⟩
              have hkey1 : (bi.name, t) ∈ idKeys bi := mem_idKeys_of ht1
              have hkey2 : (bi.name, t) ∈ idKeys bj := by
                rw [hn]; exact mem_idKeys_of ht2
              have hlk : lookupSeen seen2 (bi.name, t) = some j := by
                refine i3 _ ?_
                rw [hgj]
                exact hkey2
              rw [checkDupAux_ok_no_seen_collision rest seen2 h i bi hmi hgi
                hli _ hkey1] at hlk
              cases hlk
            · exact ih seen2 h i j bi bj hmi hmj hij hgi hgj hli hlj hsh

theorem checkDupAux_error_spec {c : Ctr}
    (hwf : ∀ b ∈ c, (b.exports ++ [b.typ]).Nodup) :
    ∀ (idxs : List Nat) (seen : List ((String × Nat) × Nat)) (err : GoErr),
      checkDupAux c idxs seen = .error err →
      (∀ k j, lookupSeen seen k = some j →
        ∃ bj, c.get? j = some bj ∧ bj.status ≠ .StatusDeleted ∧
          k ∈ idKeys bj) →
      (∀ k j, lookupSeen seen k = some j → j ∉ idxs) →
      idxs.Nodup →
      ∃ i j bi bj, i ≠ j ∧ c.get? i = some bi ∧ c.get? j = some bj ∧
        bi.status ≠ .StatusDeleted ∧ bj.status ≠ .StatusDeleted ∧
        shareIdentity bi bj ∧ err = .msg (dupMsg bi bj) := by
  intro idxs
  induction idxs with
  | nil =>
    intro seen err h _ _ _
    rw [checkDupAux] at h
    cases h
  | cons a rest ih =>
    intro seen err h hP hni hnd
    rw [checkDupAux] at h
    split at h
    · exact ih seen err h hP
        (fun k j hkj => fun hm => hni k j hkj (List.mem_cons_of_mem _ hm))
        (List.nodup_cons.mp hnd).2
    · rename_i b hga
      split at h
      · exact ih seen err h hP
          (fun k j hkj => fun hm => hni k j hkj (List.mem_cons_of_mem _ hm))
          (List.nodup_cons.mp hnd).2
      · rename_i hdel
        have hblive : b.status ≠ .StatusDeleted := by
          intro hc; simp [hc] at hdel
        split at h
        · rename_i e hins
          injection h with h
          rw [← h]
          have hno : ∀ k, lookupSeen seen k = some a → k ∉ idKeys b := by
            intro k hka _
            exact absurd (List.mem_cons_self a rest) (hni k a hka)
          rcases insertIDs_error_spec hga hblive _ _ _ hins hP hno
              (idKeys_nodup (hwf b (List.get?_mem hga)))
              (fun k hk => hk) with
            ⟨j, bj, k, hji, hbj, hlive, hkb, hkbj, herr⟩
          exact ⟨a, j, b, bj, fun he => hji he.symm, hga, hbj, hblive,
            hlive, shareIdentity_of_key hkb hkbj, herr⟩
        · rename_i seen2 hins
          rcases insertIDs_ok_spec _ _ _ hins with ⟨_, _, _, i4⟩
          refine ih seen2 err h ?_ ?_ (List.nodup_cons.mp hnd).2
          · intro k j hkj
            rcases i4 k j hkj with hseen | ⟨rfl, hmem⟩
            · exact hP k j hseen
            · exact ⟨b, hga, hblive, hmem⟩
          · intro k j hkj
            rcases i4 k j hkj with hseen | ⟨rfl, _⟩
            · intro hm
              exact hni k j hseen (List.mem_cons_of_mem _ hm)
            · exact (List.nodup_cons.mp hnd).1

/-- C2 counterexample: in a three-bean container where the pair (B, C) are
distinct non-deleted beans sharing the identity (type 1, "x"), the duplicate
check does fail — but the error names the first detected collision (B and A),
not the pair (B, C): C's description appears nowhere in the error. -/
theorem checkDuplicateBeans_pair_naming_counterexample :
    checkDuplicateBeans exC2 =
      .error (.msg "found duplicate beans [name=x b.go:2] [name=x a.go:1]") ∧
    exC2.get? 1 = some beanBC2 ∧ exC2.get? 2 = some beanCC2 ∧
    beanBC2.status ≠ .StatusDeleted ∧ beanCC2.status ≠ .StatusDeleted ∧
    shareIdentity beanBC2 beanCC2 ∧ beanBC2 ≠ beanCC2 ∧
    containsSub
      (GoErr.flatten
        (.msg "found duplicate beans [name=x b.go:2] [name=x a.go:1]"))
      beanCC2.descr = false := by
  refine ⟨rfl, rfl, rfl, ?_, ?_, ?_, ?_, rfl⟩
  · intro hc; cases hc
  · intro hc; cases hc
  · exact ⟨rfl, 1, by decide, by decide⟩
  · intro hc; cases hc

/-- C2 (amended): if two distinct non-deleted beans can be matched under a
common identity (a type that is each bean's own type or an exported
interface type, combined with the shared name), then `checkDuplicateBeans`
fails with a duplicate-bean error whose message carries the descriptions of
the two beans of the first detected collision — a pair of distinct
non-deleted beans sharing an identity, though not necessarily the given
pair.  (The hypothesis that each bean's identity-type list has no duplicates
reflects `Export`, which refuses non-interface types and skips duplicate
exports.) -/
theorem duplicate_identity_aborts_refresh (c : Ctr)
    (hwf : ∀ b ∈ c, (b.exports ++ [b.typ]).Nodup)
    (i j : Nat) (bi bj : Bean) (hij : i ≠ j)
    (hgi : c.get? i = some bi) (hgj : c.get? j = some bj)
    (hli : bi.status ≠ .StatusDeleted) (hlj : bj.status ≠ .StatusDeleted)
    (hsh : shareIdentity bi bj) :
    ∃ i' j' bi' bj', i' ≠ j' ∧ c.get? i' = some bi' ∧
      c.get? j' = some bj' ∧ bi'.status ≠ .StatusDeleted ∧
      bj'.status ≠ .StatusDeleted ∧ shareIdentity bi' bj' ∧
      checkDuplicateBeans c = .error (.msg (dupMsg bi' bj')) := by
  cases hres : checkDuplicateBeans c with
  | ok u =>
    exfalso
    have hi : i ∈ List.range c.length := by
      rcases List.get?_eq_some.mp hgi with ⟨hl, _⟩
      simpa using hl
    have hj : j ∈ List.range c.length := by
      rcases List.get?_eq_some.mp hgj with ⟨hl, _⟩
      simpa using hl
    exact checkDupAux_ok_no_collision _ _ hres i j bi bj hi hj hij hgi hgj
      hli hlj hsh
  | error err =>
    rcases checkDupAux_error_spec hwf _ _ _ hres
        (fun k j hkj => by cases hkj)
        (fun k j hkj => by cases hkj)
        (List.nodup_range _) with
      ⟨i', j', bi', bj', h1, h2, h3, h4, h5, h6, h7⟩
    exact ⟨i', j', bi', bj', h1, h2, h3, h4, h5, h6, by rw [h7]⟩

/-- Witness for the amended C2 at the concrete three-bean container. -/
theorem duplicate_identity_aborts_refresh_witness :
    ∃ i' j' bi' bj', i' ≠ j' ∧ exC2.get? i' = some bi' ∧
      exC2.get? j' = some bj' ∧ bi'.status ≠ .StatusDeleted ∧
      bj'.status ≠ .StatusDeleted ∧ shareIdentity bi' bj' ∧
      checkDuplicateBeans exC2 = .error (.msg (dupMsg bi' bj')) := by
  refine duplicate_identity_aborts_refresh exC2 ?_ 1 2 beanBC2 beanCC2
    ?_ rfl rfl ?_ ?_ ?_
  · intro b hb
    simp only [exC2, List.mem_cons, List.not_mem_nil, or_false] at hb
    rcases hb with rfl | rfl | rfl <;> decide
  · decide
  · intro hc; cases hc
  · intro hc; cases hc
  · exact ⟨rfl, 1, by decide, by decide⟩


/-! ### Claim C3: condition errors abort, false conditions delete -/

theorem setStatus_setStatus {c : Ctr} {i : Nat} (s1 s2 : BeanStatus) :
    setStatus (setStatus c i s1) i s2 = setStatus c i s2 := by
  apply List.ext
  intro n
  by_cases hn : i = n
  · subst hn
    cases hg : c.get? i with
    | none =>
      rw [setStatus_none s1 hg, setStatus_none s2 hg]
    | some b =>
      rw [setStatus_get?_self s2 (setStatus_get?_self s1 hg),
        setStatus_get?_self s2 hg]
  · rw [setStatus_get?_other s2 hn, setStatus_get?_other s1 hn,
      setStatus_get?_other s2 hn]

theorem evalCondsFn_pure_true {rb : Ctr → Nat → Option (Except GoErr Ctr)} :
    ∀ (ts : List Cond), (∀ t ∈ ts, ∃ d, t = Cond.res d (.ok true)) →
    ∀ (c : Ctr) (rest : List Cond),
      evalCondsFn rb c (ts ++ rest) = evalCondsFn rb c rest := by
  intro ts
  induction ts with
  | nil => intro _ c rest; rw [List.nil_append]
  | cons t ts ih =>
    intro hts c rest
    rcases hts t (List.mem_cons_self _ _) with ⟨d, rfl⟩
    rw [List.cons_append, evalCondsFn]
    rw [show condMatchesFn rb c (Cond.res d (.ok true)) =
      some (.ok (true, c)) from rfl]
    exact ih (fun t' ht' => hts t' (List.mem_cons_of_mem _ ht')) c rest

/-- C3 (amended): during bean resolution, for every bean whose conditions
are, in order, a block of true conditions followed by a failing or false
condition: (a) if the condition evaluation returns an error, `resolveBean`
aborts with the wrapped error identifying the condition (the bean is not
named in the error), and the whole `resolveBeans` loop aborts with that
error wrapped as "resolve bean error"; (b) if the condition evaluates to
`false` without error, the bean is set to `StatusDeleted` and the loop
continues over the remaining beans with no error. -/
theorem condition_error_aborts_false_deletes :
    (∀ (fuel : Nat) (c : Ctr) (i : Nat) (b : Bean) (ts rest : List Cond)
       (nm m : String) (idxs : List Nat),
      c.get? i = some b → b.status.ge .StatusResolving = false →
      b.conds = ts ++ Cond.res nm (.error m) :: rest →
      (∀ t ∈ ts, ∃ d, t = Cond.res d (.ok true)) →
      resolveBean (fuel + 1) c i =
        some (.error
          (.wrap ("condition " ++ nm ++ " matches error") (.msg m))) ∧
      resolveBeansAux (fuel + 1) c (i :: idxs) =
        some (.error (.wrap "resolve bean error"
          (.wrap ("condition " ++ nm ++ " matches error") (.msg m))))) ∧
    (∀ (fuel : Nat) (c : Ctr) (i : Nat) (b : Bean) (ts rest : List Cond)
       (nm : String) (idxs : List Nat),
      c.get? i = some b → b.status.ge .StatusResolving = false →
      b.conds = ts ++ Cond.res nm (.ok false) :: rest →
      (∀ t ∈ ts, ∃ d, t = Cond.res d (.ok true)) →
      resolveBean (fuel + 1) c i =
        some (.ok (setStatus c i .StatusDeleted)) ∧
      resolveBeansAux (fuel + 1) c (i :: idxs) =
        resolveBeansAux (fuel + 1) (setStatus c i .StatusDeleted) idxs) := by
  have parta : ∀ (fuel : Nat) (c : Ctr) (i : Nat) (b : Bean)
      (ts rest : List Cond) (nm m : String),
      c.get? i = some b → b.status.ge .StatusResolving = false →
      b.conds = ts ++ Cond.res nm (.error m) :: rest →
      (∀ t ∈ ts, ∃ d, t = Cond.res d (.ok true)) →
      resolveBean (fuel + 1) c i =
        some (.error
          (.wrap ("condition " ++ nm ++ " matches error") (.msg m))) := by
    intro fuel c i b ts rest nm m hget hnge hconds hts
    rw [resolveBean, hget]
    dsimp only
    rw [if_neg (by rw [hnge]; exact Bool.false_ne_true)]
    rw [hconds, evalCondsFn_pure_true ts hts, evalCondsFn]
    rfl
  have partb : ∀ (fuel : Nat) (c : Ctr) (i : Nat) (b : Bean)
      (ts rest : List Cond) (nm : String),
      c.get? i = some b → b.status.ge .StatusResolving = false →
      b.conds = ts ++ Cond.res nm (.ok false) :: rest →
      (∀ t ∈ ts, ∃ d, t = Cond.res d (.ok true)) →
      resolveBean (fuel + 1) c i =
        some (.ok (setStatus c i .StatusDeleted)) := by
    intro fuel c i b ts rest nm hget hnge hconds hts
    rw [resolveBean, hget]
    dsimp only
    rw [if_neg (by rw [hnge]; exact Bool.false_ne_true)]
    rw [hconds, evalCondsFn_pure_true ts hts, evalCondsFn]
    rw [show condMatchesFn (resolveBean fuel)
      (setStatus c i BeanStatus.StatusResolving) (Cond.res nm (.ok false)) =
      some (.ok (false, setStatus c i BeanStatus.StatusResolving)) from rfl]
    dsimp only
    rw [setStatus_setStatus]
  constructor
  · intro fuel c i b ts rest nm m idxs hget hnge hconds hts
    have ha := parta fuel c i b ts rest nm m hget hnge hconds hts
    refine ⟨ha, ?_⟩
    rw [resolveBeansAux, ha]
  · intro fuel c i b ts rest nm idxs hget hnge hconds hts
    have hb := partb fuel c i b ts rest nm hget hnge hconds hts
    refine ⟨hb, ?_⟩
    rw [resolveBeansAux, hb]

/-- Witness for the amended C3 at concrete containers: one bean whose second
condition errors after a true first condition, and one bean whose condition
is false. -/
theorem condition_error_aborts_false_deletes_witness :
    (resolveBean 3
        [{ name := "mybean1", typ := 5, exports := []
           conds := [Cond.res "OnProperty(a)" (.ok true),
             Cond.res "OnFunc(0x100)" (.error "condition error")]
           status := .StatusDefault, configuration := none
           fileLine := "t.go:7" }] 0 =
      some (.error (.wrap "condition OnFunc(0x100) matches error"
        (.msg "condition error")))) ∧
    (resolveBean 3
        [{ name := "mybean2", typ := 5, exports := []
           conds := [Cond.res "OnProperty(b)" (.ok false)]
           status := .StatusDefault, configuration := none
           fileLine := "t.go:9" }] 0 =
      some (.ok (setStatus
        [{ name := "mybean2", typ := 5, exports := []
           conds := [Cond.res "OnProperty(b)" (.ok false)]
           status := .StatusDefault, configuration := none
           fileLine := "t.go:9" }] 0 .StatusDeleted))) := by
  constructor
  · exact ((condition_error_aborts_false_deletes.1 2
      [{ name := "mybean1", typ := 5, exports := []
         conds := [Cond.res "OnProperty(a)" (.ok true),
           Cond.res "OnFunc(0x100)" (.error "condition error")]
         status := .StatusDefault, configuration := none
         fileLine := "t.go:7" }] 0
      { name := "mybean1", typ := 5, exports := []
        conds := [Cond.res "OnProperty(a)" (.ok true),
          Cond.res "OnFunc(0x100)" (.error "condition error")]
        status := .StatusDefault, configuration := none
        fileLine := "t.go:7" }
      [Cond.res "OnProperty(a)" (.ok true)] [] "OnFunc(0x100)"
      "condition error" [] rfl rfl rfl
      (by intro t ht
          simp only [List.mem_cons, List.not_mem_nil, or_false] at ht
          exact ⟨"OnProperty(a)", ht⟩))).1
  · exact ((condition_error_aborts_false_deletes.2 2
      [{ name := "mybean2", typ := 5, exports := []
         conds := [Cond.res "OnProperty(b)" (.ok false)]
         status := .StatusDefault, configuration := none
         fileLine := "t.go:9" }] 0
      { name := "mybean2", typ := 5, exports := []
        conds := [Cond.res "OnProperty(b)" (.ok false)]
        status := .StatusDefault, configuration := none
        fileLine := "t.go:9" }
      [] [] "OnProperty(b)" [] rfl rfl rfl
      (by intro t ht; exact absurd ht (List.not_mem_nil t)))).1

/-- C3 counterexample (for the "identifying the bean" part of the claim):
the error a failing condition produces identifies the condition but does not
mention the bean — the bean's name appears nowhere in the flattened error
message. -/
theorem condition_error_does_not_name_bean :
    resolveBeans 3
      [{ name := "mybean1", typ := 5, exports := []
         conds := [Cond.res "OnFunc(0x100)" (.error "condition error")]
         status := .StatusDefault, configuration := none
         fileLine := "t.go:7" }] =
      some (.error (.wrap "resolve bean error"
        (.wrap "condition OnFunc(0x100) matches error"
          (.msg "condition error")))) ∧
    containsSub
      (GoErr.flatten (.wrap "resolve bean error"
        (.wrap "condition OnFunc(0x100) matches error"
          (.msg "condition error"))))
      "mybean1" = false ∧
    containsSub
      (GoErr.flatten (.wrap "resolve bean error"
        (.wrap "condition OnFunc(0x100) matches error"
          (.msg "condition error"))))
      "OnFunc(0x100)" = true := by
  exact ⟨rfl, rfl, rfl⟩


/-! ### Claim C4: `Find` skips resolving beans; resolution terminates -/

theorem resolveBeansAux_total {fuel : Nat} :
    ∀ (idxs : List Nat) (c : Ctr), dflt c + 2 ≤ fuel →
      resolveBeansAux fuel c idxs ≠ none := by
  intro idxs
  induction idxs with
  | nil => intro c _ heq; rw [resolveBeansAux] at heq; cases heq
  | cons i rest ih =>
    intro c hbound heq
    rw [resolveBeansAux] at heq
    split at heq
    · rename_i hrb
      exact (resolveBean_total fuel c i).1 hbound hrb
    · cases heq
    · rename_i c2 hrb
      have hd : dflt c2 ≤ dflt c :=
        rbInv_dflt_le (resolveBean_rbspec fuel c i c2 hrb)
      exact ih c2 (by omega) heq

/-- C4: a bean whose status is `StatusResolving` is excluded from every
`Find` result and left untouched by the lookup, and — as a consequence of
this re-entry guard — the mutually recursive condition resolution terminates
on every container, even when beans' conditions reference each other
cyclically: with fuel `length + 2` neither a single `resolveBean` nor the
whole `resolveBeans` loop ever runs out of fuel. -/
theorem find_skips_resolving_and_resolution_terminates :
    (∀ (fuel : Nat) (c : Ctr) (t : Option Nat) (n : String)
       (found : List Nat) (c' : Ctr),
      Find fuel c t n = some (.ok (found, c')) →
      ∀ j, statusAt c j = some .StatusResolving →
        j ∉ found ∧ statusAt c' j = some .StatusResolving) ∧
    (∀ (c : Ctr) (i : Nat), resolveBean (c.length + 2) c i ≠ none) ∧
    (∀ c : Ctr, resolveBeans (c.length + 2) c ≠ none) := by
  refine ⟨?_, ?_, ?_⟩
  · intro fuel c t n found c' h j hres
    unfold Find at h
    constructor
    · intro hmem
      rcases findAuxFn_found (resolveBean_rbspec fuel) _ _ _ _ _ _ _ h j
          hmem with habs | ⟨hne, _⟩
      · exact absurd habs (List.not_mem_nil j)
      · exact hne hres
    · exact (findAuxFn_ok (resolveBean_rbspec fuel) _ _ _ _ _ _ _
        h).resolvingKeep j hres
  · intro c i
    refine (resolveBean_total (c.length + 2) c i).1 ?_
    have := dflt_le_length c
    omega
  · intro c
    unfold resolveBeans
    refine resolveBeansAux_total _ c ?_
    have := dflt_le_length c
    omega

/-- Witness for C4: a concrete lookup over a container holding a
`StatusResolving` bean excludes and preserves it, and the cyclic two-bean
container resolves without exhausting its fuel. -/
theorem find_skips_resolving_witness :
    ((0 : Nat) ∉ [1] ∧
      statusAt [
        { name := "r", typ := 1, exports := [], conds := []
          status := .StatusResolving, configuration := none
          fileLine := "r.go:1" },
        { name := "d", typ := 1, exports := [], conds := []
          status := .StatusResolved, configuration := none
          fileLine := "d.go:1" }] 0 = some .StatusResolving) ∧
    resolveBeans 4 [
      { name := "a", typ := 1, exports := []
        conds := [.onBeanID (some 2) ""], status := .StatusDefault
        configuration := none, fileLine := "a.go:1" },
      { name := "b", typ := 2, exports := []
        conds := [.onBeanID (some 1) ""], status := .StatusDefault
        configuration := none, fileLine := "b.go:1" }] ≠ none := by
  constructor
  · exact find_skips_resolving_and_resolution_terminates.1 4
      [{ name := "r", typ := 1, exports := [], conds := []
         status := .StatusResolving, configuration := none
         fileLine := "r.go:1" },
       { name := "d", typ := 1, exports := [], conds := []
         status := .StatusDefault, configuration := none
         fileLine := "d.go:1" }] (some 1) "" [1] _ rfl 0 rfl
  · exact find_skips_resolving_and_resolution_terminates.2.2
      [{ name := "a", typ := 1, exports := []
         conds := [.onBeanID (some 2) ""], status := .StatusDefault
         configuration := none, fileLine := "a.go:1" },
       { name := "b", typ := 2, exports := []
         conds := [.onBeanID (some 1) ""], status := .StatusDefault
         configuration := none, fileLine := "b.go:1" }]


/-! ### Claim C8: configuration layering -/

theorem pget_pset : ∀ (p : Props) (k v x : String),
    pget (pset p k v) x = if x = k then some v else pget p x := by
  intro p
  induction p with
  | nil =>
    intro k v x
    rw [pset, pget, pget]
    by_cases hx : x = k
    · rw [if_pos hx.symm, if_pos hx]
    · rw [if_neg (fun he => hx he.symm), if_neg hx, pget]
  | cons kv rest ih =>
    intro k v x
    rcases kv with ⟨k', v'⟩
    rw [pset]
    by_cases hk : k' = k
    · rw [if_pos hk, pget, pget]
      by_cases hx : x = k
      · rw [if_pos hx.symm, if_pos hx]
      · rw [if_neg (fun he => hx he.symm), if_neg hx,
          if_neg (by rw [hk]; exact fun he => hx he.symm)]
    · rw [if_neg hk, pget, pget]
      by_cases hx : k' = x
      · have hxk : ¬ x = k := by
          intro he
          rw [he] at hx
          exact hk hx
        rw [if_pos hx, if_pos hx, if_neg hxk]
      · rw [if_neg hx, if_neg hx, ih]

theorem pget_none_of_not_mem_keys {p : Props} {k : String}
    (h : k ∉ p.map Prod.fst) : pget p k = none := by
  induction p with
  | nil => rfl
  | cons kv rest ih =>
    rw [pget]
    rw [List.map_cons] at h
    rw [if_neg (fun he => h (by rw [he]; exact List.mem_cons_self _ _))]
    exact ih (fun hm => h (List.mem_cons_of_mem _ hm))

theorem pget_copyTo : ∀ (src out : Props), keysNodup src → ∀ x,
    pget (copyTo src out) x =
      match pget src x with
      | some v => some v
      | none => pget out x := by
  intro src
  induction src with
  | nil => intro out _ x; rfl
  | cons kv rest ih =>
    intro out hnd x
    rcases kv with ⟨k, v⟩
    have hnd' : keysNodup rest := (List.nodup_cons.mp hnd).2
    have hk : k ∉ rest.map Prod.fst := (List.nodup_cons.mp hnd).1
    rw [show copyTo ((k, v) :: rest) out = copyTo rest (pset out k v) from rfl]
    rw [ih (pset out k v) hnd' x, pget]
    by_cases hx : k = x
    · rw [if_pos hx]
      rw [show pget rest x = none from by
        rw [← hx]; exact pget_none_of_not_mem_keys hk]
      rw [pget_pset, if_pos hx.symm]
    · rw [if_neg hx]
      cases hrx : pget rest x
      · rw [pget_pset, if_neg (fun he => hx he.symm)]
      · rfl

theorem pget_mergeList : ∀ (layers : List Props),
    (∀ l ∈ layers, keysNodup l) → ∀ k,
    pget (mergeList layers) k = lastWins layers k := by
  intro layers
  induction layers using List.reverseRecOn with
  | nil => intro _ k; rfl
  | append_singleton layers l ih =>
    intro hnd k
    have hl : keysNodup l := hnd l (List.mem_append_right _ (List.mem_singleton_self l))
    have hlayers : ∀ l' ∈ layers, keysNodup l' := fun l' hl' =>
      hnd l' (List.mem_append_left _ hl')
    rw [show mergeList (layers ++ [l]) = copyTo l (mergeList layers) from by
      unfold mergeList
      rw [List.foldl_append]
      rfl]
    rw [show lastWins (layers ++ [l]) k =
        (match pget l k with
         | some v => some v
         | none => lastWins layers k) from by
      unfold lastWins
      rw [List.foldl_append, List.foldl_cons, List.foldl_nil]]
    rw [pget_copyTo l _ hl k, ih hlayers k]

/-- C8: `AppConfig.Refresh` merges, in order: the application/system default
properties, then the local profile-aware files (base `app.*` candidates in
extension order before the per-profile `app-{profile}.*` candidates), then
the imported sources designated by the `spring.app.imports` property, then
the environment variables, then the command-line arguments; each later layer
overrides the earlier ones for the same scalar key — the merged value of any
key is the last layer's binding. -/
theorem appConfig_refresh_layering (w : ConfWorld)
    (locals imports : List Props)
    (hl : loadFiles w (mergeList [w.appProps, w.envProps, w.cmdProps]) =
      .ok locals)
    (hi : loadImports w (w.importsOf (mergeList
      ([w.appProps] ++ locals ++ [w.envProps, w.cmdProps]))) = .ok imports)
    (hnd : ∀ l ∈ [w.appProps] ++ locals ++ imports ++
      [w.envProps, w.cmdProps], keysNodup l) :
    AppConfigRefresh w true =
      .ok (mergeList ([w.appProps] ++ locals ++ imports ++
        [w.envProps, w.cmdProps])) ∧
    (∀ k, pget (mergeList ([w.appProps] ++ locals ++ imports ++
        [w.envProps, w.cmdProps])) k =
      lastWins ([w.appProps] ++ locals ++ imports ++
        [w.envProps, w.cmdProps]) k) ∧
    (∀ (dir : String) (ps : List String), getAppFiles dir ps =
      extensions.map (fun ext => joinPath dir ("app" ++ ext)) ++
      ps.flatMap (fun s =>
        extensions.map (fun ext => joinPath dir ("app-" ++ s ++ ext)))) := by
  refine ⟨?_, ?_, ?_⟩
  · unfold AppConfigRefresh
    rw [hl]
    dsimp only
    rw [hi]
    rfl
  · intro k
    exact pget_mergeList _ hnd k
  · intro dir ps
    rfl

/-- Witness for C8 at a concrete configuration world: one local file
(`./conf/app.properties`) exists; the final merge gives the command-line
layer the last word, then the environment, the import, the file, and the
application defaults. -/
theorem appConfig_refresh_layering_witness :
    (AppConfigRefresh
      { appProps := [("a", "app"), ("b", "app"), ("c", "app"),
          ("d", "app"), ("e", "app")]
        envProps := [("a", "env"), ("b", "env")]
        cmdProps := [("a", "cmd")]
        loadFile := fun f =>
          if f = "./conf/app.properties" then
            .ok [("a", "file"), ("b", "file"), ("c", "file"), ("d", "file")]
          else .notExist
        loadImport := fun _ => .ok (some [("a", "imp"), ("b", "imp"),
          ("c", "imp")])
        importsOf := fun _ => ["remote:cfg"] } true =
      .ok (mergeList ([[("a", "app"), ("b", "app"), ("c", "app"),
          ("d", "app"), ("e", "app")]] ++
        [[("a", "file"), ("b", "file"), ("c", "file"), ("d", "file")]] ++
        [[("a", "imp"), ("b", "imp"), ("c", "imp")]] ++
        [[("a", "env"), ("b", "env")], [("a", "cmd")]]))) ∧
    pget (mergeList ([[("a", "app"), ("b", "app"), ("c", "app"),
        ("d", "app"), ("e", "app")]] ++
      [[("a", "file"), ("b", "file"), ("c", "file"), ("d", "file")]] ++
      [[("a", "imp"), ("b", "imp"), ("c", "imp")]] ++
      [[("a", "env"), ("b", "env")], [("a", "cmd")]])) "a" =
      lastWins ([[("a", "app"), ("b", "app"), ("c", "app"),
        ("d", "app"), ("e", "app")]] ++
      [[("a", "file"), ("b", "file"), ("c", "file"), ("d", "file")]] ++
      [[("a", "imp"), ("b", "imp"), ("c", "imp")]] ++
      [[("a", "env"), ("b", "env")], [("a", "cmd")]]) "a" := by
  have h := appConfig_refresh_layering
    { appProps := [("a", "app"), ("b", "app"), ("c", "app"),
        ("d", "app"), ("e", "app")]
      envProps := [("a", "env"), ("b", "env")]
      cmdProps := [("a", "cmd")]
      loadFile := fun f =>
        if f = "./conf/app.properties" then
          .ok [("a", "file"), ("b", "file"), ("c", "file"), ("d", "file")]
        else .notExist
      loadImport := fun _ => .ok (some [("a", "imp"), ("b", "imp"),
        ("c", "imp")])
      importsOf := fun _ => ["remote:cfg"] }
    [[("a", "file"), ("b", "file"), ("c", "file"), ("d", "file")]]
    [[("a", "imp"), ("b", "imp"), ("c", "imp")]]
    (by rfl) (by rfl) ?_
  · exact ⟨h.1, h.2.1 "a"⟩
  · intro l hlmem
    simp only [List.append_assoc, List.cons_append, List.nil_append,
      List.mem_cons, List.not_mem_nil, or_false] at hlmem
    rcases hlmem with rfl | rfl | rfl | rfl | rfl <;>
      first
      | exact List.nodup_singleton _
      | refine List.Nodup.cons ?_ ?_ <;> decide

/-! ### Claim C5: configuration-class method scanning and derived beans -/

theorem matcherAt_transport {c c' : Ctr} {t : Option Nat} {n : String}
    (hlen : c'.length = c.length)
    (hshape : ∀ j, shapeAt c' j = shapeAt c j)
    (hfro : ∀ j s, statusAt c j = some s → s.ge .StatusResolved = true →
      statusAt c' j = some s)
    (hm : MatcherAt c t n) : MatcherAt c' t n := by
  rcases hm with ⟨j, b, hget, hmat, hge⟩
  have hs : statusAt c' j = some b.status :=
    hfro j b.status (by rw [statusAt_eq, hget]; rfl) hge
  rcases get?_isSome_of_length hlen hget with ⟨b', hget'⟩
  have hsb : b'.status = b.status := by
    rw [statusAt_eq, hget'] at hs
    simpa using hs
  have hsh : Bean.shape b' = Bean.shape b := by
    have := hshape j
    unfold shapeAt at this
    rw [hget, hget'] at this
    simpa using this
  refine ⟨j, b', hget', ?_, ?_⟩
  · rw [isBeanMatched_shape hsh, hmat]
  · rw [hsb]
    exact hge

theorem condAt_transport {c c' : Ctr} {i : Nat} {t : Option Nat} {n : String}
    (hlen : c'.length = c.length)
    (hshape : ∀ j, shapeAt c' j = shapeAt c j)
    (hca : CondAt c i t n) : CondAt c' i t n := by
  rcases hca with ⟨b, hget, hmem⟩
  rcases get?_isSome_of_length hlen hget with ⟨b', hget'⟩
  have hsh : Bean.shape b' = Bean.shape b := by
    have := hshape i
    unfold shapeAt at this
    rw [hget, hget'] at this
    simpa using this
  refine ⟨b', hget', ?_⟩
  rw [(shape_fields hsh).2.2.2.1]
  exact hmem

theorem resProp_id {c c' : Ctr} (h : c' = c) : ResProp c c' := by
  subst h
  intro i t n _ hres hnres
  exact absurd hres hnres

theorem resProp_trans {c c2 c' : Ctr}
    (hlen1 : c2.length = c.length)
    (hshape1 : ∀ j, shapeAt c2 j = shapeAt c j)
    (hlen2 : c'.length = c2.length)
    (hshape2 : ∀ j, shapeAt c' j = shapeAt c2 j)
    (hfro2 : ∀ j s, statusAt c2 j = some s → s.ge .StatusResolved = true →
      statusAt c' j = some s)
    (p1 : ResProp c c2) (p2 : ResProp c2 c') : ResProp c c' := by
  intro i t n hca hres hnres
  by_cases hmid : statusAt c2 i = some .StatusResolved
  · exact matcherAt_transport hlen2 hshape2 hfro2 (p1 i t n hca hmid hnres)
  · exact p2 i t n (condAt_transport hlen1 hshape1 hca) hres hmid

theorem matcherAt_setStatus {c : Ctr} {i : Nat} {t : Option Nat} {n : String}
    (hm : MatcherAt c t n) (hres : statusAt c i = some .StatusResolving)
    (s : BeanStatus) : MatcherAt (setStatus c i s) t n := by
  rcases hm with ⟨j, b, hget, hmat, hge⟩
  have hij : i ≠ j := by
    rintro rfl
    rw [statusAt_eq, hget] at hres
    have hbs : b.status = .StatusResolving := by simpa using hres
    rw [hbs] at hge
    exact absurd hge (by decide)
  refine ⟨j, b, ?_, hmat, hge⟩
  rw [setStatus_get?_other s hij]
  exact hget

theorem condMatchesFn_true_matcher
    {rb : Ctr → Nat → Option (Except GoErr Ctr)} (hrb : RBSpec rb)
    {c c2 : Ctr} {t : Option Nat} {n : String}
    (h : condMatchesFn rb c (.onBeanID t n) = some (.ok (true, c2))) :
    MatcherAt c2 t n := by
  rw [condMatchesFn.eq_def] at h
  simp only at h
  split at h
  · cases h
  · cases h
  · rename_i found c3 hfind
    injection h with h
    injection h with h
    injection h with hflag hc
    subst hc
    cases found with
    | nil => exact absurd hflag (by simp)
    | cons j rest =>
      have hj := findAuxFn_found hrb _ _ _ _ _ _ _ hfind j
        (List.mem_cons_self j rest)
      rcases hj with hacc | ⟨_, b', hget, hmat, hge⟩
      · exact absurd hacc (List.not_mem_nil j)
      · exact ⟨j, b', hget, hmat, hge⟩

theorem evalCondsFn_true_matcher
    {rb : Ctr → Nat → Option (Except GoErr Ctr)} (hrb : RBSpec rb) :
    ∀ (conds : List Cond) (c c' : Ctr),
      evalCondsFn rb c conds = some (.ok (true, c')) →
      ∀ t n, Cond.onBeanID t n ∈ conds → MatcherAt c' t n := by
  intro conds
  induction conds with
  | nil =>
    intro c c' h t n hmem
    exact absurd hmem (List.not_mem_nil _)
  | cons cond rest ih =>
    intro c c' h t n hmem
    rw [evalCondsFn] at h
    split at h
    · cases h
    · cases h
    · exact absurd h (by simp)
    · rename_i c2 hcm
      rcases List.mem_cons.mp hmem with rfl | hmem2
      · have hm2 : MatcherAt c2 t n := condMatchesFn_true_matcher hrb hcm
        have hin : InnerInv c2 c' := evalCondsFn_ok hrb rest c2 true c' h
        exact matcherAt_transport hin.len hin.shape hin.frozenHi hm2
      · exact ih c2 c' h t n hmem2

theorem findAuxFn_resProp {rb : Ctr → Nat → Option (Except GoErr Ctr)}
    (hrb : RBSpec rb)
    (hrp : ∀ c i c', rb c i = some (.ok c') → ResProp c c') :
    ∀ (idxs : List Nat) (c : Ctr) (t : Option Nat) (n : String)
      (acc found : List Nat) (c' : Ctr),
      findAuxFn rb c t n idxs acc = some (.ok (found, c')) → ResProp c c' := by
  intro idxs
  induction idxs with
  | nil =>
    intro c t n acc found c' h
    rw [findAuxFn] at h
    injection h with h
    injection h with h
    injection h with _ h
    exact resProp_id h.symm
  | cons j rest ih =>
    intro c t n acc found c' h
    rw [findAuxFn] at h
    split at h
    · exact ih _ _ _ _ _ _ h
    · rename_i b hget
      split at h
      · exact ih _ _ _ _ _ _ h
      · rename_i hskip
        split at h
        · exact ih _ _ _ _ _ _ h
        · split at h
          · cases h
          · cases h
          · rename_i c2 hrbcall
            have hnd : statusAt c j ≠ some .StatusDeleted := by
              rw [statusAt_eq, hget]
              intro hc
              have : b.status = .StatusDeleted := by simpa using hc
              simp [this] at hskip
            have hin : InnerInv c c2 := rbInv_toInner (hrb _ _ _ hrbcall) hnd
            have hp1 : ResProp c c2 := hrp _ _ _ hrbcall
            have tail : ∀ acc2,
                findAuxFn rb c2 t n rest acc2 = some (.ok (found, c')) →
                ResProp c c' := by
              intro acc2 htail
              have hp2 := ih _ _ _ _ _ _ htail
              have hin2 : InnerInv c2 c' :=
                findAuxFn_ok hrb _ _ _ _ _ _ _ htail
              exact resProp_trans hin.len hin.shape hin2.len hin2.shape
                hin2.frozenHi hp1 hp2
            split at h
            · exact tail _ h
            · split at h
              · exact tail _ h
              · exact tail _ h

theorem condMatchesFn_resProp {rb : Ctr → Nat → Option (Except GoErr Ctr)}
    (hrb : RBSpec rb)
    (hrp : ∀ c i c', rb c i = some (.ok c') → ResProp c c')
    {c : Ctr} {cond : Cond} {flag : Bool} {c' : Ctr}
    (h : condMatchesFn rb c cond = some (.ok (flag, c'))) : ResProp c c' := by
  rw [condMatchesFn.eq_def] at h
  cases cond with
  | res descr r =>
    cases r with
    | ok b =>
      simp only at h
      injection h with h
      injection h with h
      injection h with _ h
      exact resProp_id h.symm
    | error m =>
      simp only at h
      exact absurd h (by simp)
  | onBeanID t n =>
    simp only at h
    split at h
    · cases h
    · cases h
    · rename_i found c2 hfind
      injection h with h
      injection h with h
      injection h with _ h
      rw [← h]
      exact findAuxFn_resProp hrb hrp _ _ _ _ _ _ _ hfind

theorem evalCondsFn_resProp {rb : Ctr → Nat → Option (Except GoErr Ctr)}
    (hrb : RBSpec rb)
    (hrp : ∀ c i c', rb c i = some (.ok c') → ResProp c c') :
    ∀ (conds : List Cond) (c : Ctr) (flag : Bool) (c' : Ctr),
      evalCondsFn rb c conds = some (.ok (flag, c')) → ResProp c c' := by
  intro conds
  induction conds with
  | nil =>
    intro c flag c' h
    rw [evalCondsFn] at h
    injection h with h
    injection h with h
    injection h with _ h
    exact resProp_id h.symm
  | cons cond rest ih =>
    intro c flag c' h
    rw [evalCondsFn] at h
    split at h
    · cases h
    · cases h
    · rename_i c2 hcm
      injection h with h
      injection h with h
      injection h with _ h
      rw [← h]
      exact condMatchesFn_resProp hrb hrp hcm
    · rename_i c2 hcm
      have hp1 : ResProp c c2 := condMatchesFn_resProp hrb hrp hcm
      have hin1 : InnerInv c c2 := condMatchesFn_ok hrb hcm
      have hp2 := ih _ _ _ h
      have hin2 : InnerInv c2 c' := evalCondsFn_ok hrb rest c2 flag c' h
      exact resProp_trans hin1.len hin1.shape hin2.len hin2.shape
        hin2.frozenHi hp1 hp2

theorem resProp_sandwich_other {c c2 : Ctr} {i i' : Nat} {fin : BeanStatus}
    {t : Option Nat} {n : String}
    (hpm : ResProp (setStatus c i .StatusResolving) c2)
    (hresolv : statusAt c2 i = some .StatusResolving)
    (hii : i' ≠ i)
    (hca : CondAt c i' t n)
    (hres : statusAt (setStatus c2 i fin) i' = some .StatusResolved)
    (hnres : statusAt c i' ≠ some .StatusResolved) :
    MatcherAt (setStatus c2 i fin) t n := by
  have hres2 : statusAt c2 i' = some .StatusResolved := by
    rw [statusAt_setStatus_other fin (fun he => hii he.symm)] at hres
    exact hres
  have hnres2 : statusAt (setStatus c i .StatusResolving) i' ≠
      some .StatusResolved := by
    rw [statusAt_setStatus_other .StatusResolving (fun he => hii he.symm)]
    exact hnres
  have hca2 : CondAt (setStatus c i .StatusResolving) i' t n := by
    rcases hca with ⟨bc, hgetc, hmemc⟩
    refine ⟨bc, ?_, hmemc⟩
    rw [setStatus_get?_other .StatusResolving (fun he => hii he.symm)]
    exact hgetc
  exact matcherAt_setStatus (hpm i' t n hca2 hres2 hnres2) hresolv fin

theorem resolveBean_resProp :
    ∀ (fuel : Nat) (c : Ctr) (i : Nat) (c' : Ctr),
      resolveBean fuel c i = some (.ok c') → ResProp c c' := by
  intro fuel
  induction fuel with
  | zero => intro c i c' h; cases h
  | succ fuel ih =>
    intro c i c' h
    rw [resolveBean] at h
    split at h
    · rename_i hget
      injection h with h
      injection h with h
      exact resProp_id h.symm
    · rename_i b hget
      split at h
      · rename_i hge
        injection h with h
        injection h with h
        exact resProp_id h.symm
      · rename_i hge
        have hrb := resolveBean_rbspec fuel
        split at h
        · cases h
        · cases h
        · rename_i c2 hev
          injection h with h
          injection h with h
          subst h
          have hin : InnerInv (setStatus c i .StatusResolving) c2 :=
            evalCondsFn_ok hrb _ _ _ _ hev
          have hpm : ResProp (setStatus c i .StatusResolving) c2 :=
            evalCondsFn_resProp hrb ih _ _ _ _ hev
          have hresolv : statusAt c2 i = some .StatusResolving :=
            hin.resolvingKeep i (statusAt_setStatus_self .StatusResolving hget)
          intro i' t n hca hres hnres
          by_cases hii : i' = i
          · subst hii
            exfalso
            rcases statusAt_some_get hresolv with ⟨b2, hb2, _⟩
            rw [statusAt_setStatus_self .StatusDeleted hb2] at hres
            exact BeanStatus.noConfusion (Option.some.inj hres)
          · exact resProp_sandwich_other hpm hresolv hii hca hres hnres
        · rename_i c2 hev
          injection h with h
          injection h with h
          subst h
          have hin : InnerInv (setStatus c i .StatusResolving) c2 :=
            evalCondsFn_ok hrb _ _ _ _ hev
          have hpm : ResProp (setStatus c i .StatusResolving) c2 :=
            evalCondsFn_resProp hrb ih _ _ _ _ hev
          have hresolv : statusAt c2 i = some .StatusResolving :=
            hin.resolvingKeep i (statusAt_setStatus_self .StatusResolving hget)
          intro i' t n hca hres hnres
          by_cases hii : i' = i
          · subst hii
            rcases hca with ⟨bc, hgetc, hmemc⟩
            rw [hget] at hgetc
            have hbc : bc = b := (Option.some.inj hgetc).symm
            rw [hbc] at hmemc
            have hm2 : MatcherAt c2 t n :=
              evalCondsFn_true_matcher hrb b.conds _ _ hev t n hmemc
            exact matcherAt_setStatus hm2 hresolv .StatusResolved
          · exact resProp_sandwich_other hpm hresolv hii hca hres hnres

theorem resCert_step {c c' : Ctr}
    (hlen : c'.length = c.length)
    (hshape : ∀ j, shapeAt c' j = shapeAt c j)
    (hfro : ∀ j s, statusAt c j = some s → s.ge .StatusResolved = true →
      statusAt c' j = some s)
    (hp : ResProp c c')
    (hc : ResCert c) : ResCert c' := by
  intro i b t n hget hmem hres
  have hres' : statusAt c' i = some .StatusResolved := by
    rw [statusAt_eq, hget]
    simp [hres]
  by_cases hmid : statusAt c i = some .StatusResolved
  · rcases statusAt_some_get hmid with ⟨b0, hget0, hb0s⟩
    have hsh : Bean.shape b = Bean.shape b0 := by
      have := hshape i
      unfold shapeAt at this
      rw [hget, hget0] at this
      simpa using this
    have hmem0 : Cond.onBeanID t n ∈ b0.conds := by
      rw [← (shape_fields hsh).2.2.2.1]
      exact hmem
    exact matcherAt_transport hlen hshape hfro (hc i b0 t n hget0 hmem0 hb0s)
  · rcases get?_isSome_of_length
        (show c.length = c'.length from hlen.symm) hget with ⟨b0, hget0⟩
    have hsh : Bean.shape b = Bean.shape b0 := by
      have := hshape i
      unfold shapeAt at this
      rw [hget, hget0] at this
      simpa using this
    have hca : CondAt c i t n := by
      refine ⟨b0, hget0, ?_⟩
      rw [← (shape_fields hsh).2.2.2.1]
      exact hmem
    exact hp i t n hca hres' hmid

theorem matcherAt_append {c : Ctr} (ds : List Bean) {t : Option Nat}
    {n : String} (h : MatcherAt c t n) : MatcherAt (c ++ ds) t n := by
  rcases h with ⟨j, b, hget, hmat, hge⟩
  have hlt : j < c.length := by
    rcases List.get?_eq_some.mp hget with ⟨hl, _⟩
    exact hl
  refine ⟨j, b, ?_, hmat, hge⟩
  rw [List.get?_append hlt]
  exact hget

theorem resCert_append {c : Ctr} {ds : List Bean}
    (hds : ∀ b ∈ ds, b.status = .StatusDefault)
    (hc : ResCert c) : ResCert (c ++ ds) := by
  intro i b t n hget hmem hres
  rcases mem_of_get?_append hget with hcg | hmemds
  · exact matcherAt_append ds (hc i b t n hcg hmem hres)
  · rw [hds b hmemds] at hres
    cases hres

theorem applyModules_resCert :
    ∀ (modules : List GsModule) (c c' : Ctr),
      applyModules modules c = .ok c' → ResCert c → ResCert c' := by
  intro modules
  induction modules with
  | nil =>
    intro c c' h hc
    rw [applyModules] at h
    injection h with h
    rw [← h]
    exact hc
  | cons m ms ih =>
    intro c c' h hc
    rw [applyModules] at h
    split at h
    · rename_i cond
      split at h
      · cases h
      · cases h
      · rename_i c1 hcm
        have hin : InnerInv c c1 :=
          condMatchesFn_ok (resolveBean_rbspec _) hcm
        have hp : ResProp c c1 :=
          condMatchesFn_resProp (resolveBean_rbspec _)
            (resolveBean_resProp _) hcm
        exact ih c1 c' h
          (resCert_step hin.len hin.shape hin.frozenHi hp hc)
      · rename_i c1 hcm
        have hin : InnerInv c c1 :=
          condMatchesFn_ok (resolveBean_rbspec _) hcm
        have hp : ResProp c c1 :=
          condMatchesFn_resProp (resolveBean_rbspec _)
            (resolveBean_resProp _) hcm
        split at h
        · cases h
        · rename_i pbs _
          have hds : ∀ b ∈ pbs.map PBean.toBean,
              b.status = .StatusDefault := by
            intro b hb
            rcases List.mem_map.mp hb with ⟨p, _, rfl⟩
            rfl
          exact ih _ c' h
            (resCert_append hds
              (resCert_step hin.len hin.shape hin.frozenHi hp hc))
    · split at h
      · cases h
      · rename_i pbs _
        have hds : ∀ b ∈ pbs.map PBean.toBean,
            b.status = .StatusDefault := by
          intro b hb
          rcases List.mem_map.mp hb with ⟨p, _, rfl⟩
          rfl
        exact ih _ c' h (resCert_append hds hc)

theorem scanConfigurations_resCert {w : World} :
    ∀ (bds : List Bean) (acc c' : Ctr),
      scanConfigurations w acc bds = .ok c' → ResCert acc → ResCert c' := by
  intro bds
  induction bds with
  | nil =>
    intro acc c' h hc
    rw [scanConfigurations] at h
    injection h with h
    rw [← h]
    exact hc
  | cons bd rest ih =>
    intro acc c' h hc
    rw [scanConfigurations] at h
    split at h
    · exact ih acc c' h hc
    · rename_i param
      split at h
      · cases h
      · rename_i beans hscan
        exact ih _ c' h
          (resCert_append (scanConfiguration_children_default hscan) hc)

theorem resolveBeansAux_transport {fuel : Nat} :
    ∀ (idxs : List Nat) (c c' : Ctr),
      resolveBeansAux fuel c idxs = some (.ok c') →
      c'.length = c.length ∧ (∀ j, shapeAt c' j = shapeAt c j) ∧
      (∀ j s, statusAt c j = some s → s.ge .StatusResolved = true →
        statusAt c' j = some s) := by
  intro idxs
  induction idxs with
  | nil =>
    intro c c' h
    rw [resolveBeansAux] at h
    injection h with h
    injection h with h
    rw [← h]
    exact ⟨rfl, fun _ => rfl, fun _ _ hs _ => hs⟩
  | cons k rest ih =>
    intro c c' h
    rw [resolveBeansAux] at h
    split at h
    · cases h
    · cases h
    · rename_i c2 hrbcall
      have hinv := resolveBean_rbspec fuel c k c2 hrbcall
      rcases ih c2 c' h with ⟨hlen, hshape, hfro⟩
      refine ⟨hlen.trans hinv.len, ?_, ?_⟩
      · intro j
        rw [hshape j, hinv.shape j]
      · intro j s hs hge
        exact hfro j s (hinv.frozenHi j s hs hge) hge

theorem resolveBeansAux_resCert {fuel : Nat} :
    ∀ (idxs : List Nat) (c c' : Ctr),
      resolveBeansAux fuel c idxs = some (.ok c') →
      ResCert c → ResCert c' := by
  intro idxs
  induction idxs with
  | nil =>
    intro c c' h hc
    rw [resolveBeansAux] at h
    injection h with h
    injection h with h
    rw [← h]
    exact hc
  | cons k rest ih =>
    intro c c' h hc
    rw [resolveBeansAux] at h
    split at h
    · cases h
    · cases h
    · rename_i c2 hrbcall
      have hinv := resolveBean_rbspec fuel c k c2 hrbcall
      have hp : ResProp c c2 := resolveBean_resProp fuel c k c2 hrbcall
      exact ih c2 c' h
        (resCert_step hinv.len hinv.shape hinv.frozenHi hp hc)

theorem scanConfigurations_mem_acc {w : World} :
    ∀ (bds : List Bean) (acc c' : Ctr),
      scanConfigurations w acc bds = .ok c' → ∀ x ∈ acc, x ∈ c' := by
  intro bds
  induction bds with
  | nil =>
    intro acc c' h x hx
    rw [scanConfigurations] at h
    injection h with h
    rw [← h]
    exact hx
  | cons bd rest ih =>
    intro acc c' h x hx
    rw [scanConfigurations] at h
    split at h
    · exact ih acc c' h x hx
    · rename_i param
      split at h
      · cases h
      · rename_i beans hscan
        exact ih _ c' h x (List.mem_append_left beans hx)

theorem scanConfigurations_child_ok {w : World} :
    ∀ (bds : List Bean) (acc c' : Ctr),
      scanConfigurations w acc bds = .ok c' →
      ∀ bd ∈ bds, ∀ param, bd.configuration = some param →
      ∃ ds, scanConfiguration w bd param = .ok ds ∧ ∀ x ∈ ds, x ∈ c' := by
  intro bds
  induction bds with
  | nil =>
    intro acc c' h bd hmem
    exact absurd hmem (List.not_mem_nil _)
  | cons b0 rest ih =>
    intro acc c' h bd hmem param hconf
    rw [scanConfigurations] at h
    rcases List.mem_cons.mp hmem with rfl | hmem2
    · split at h
      · rename_i hc0
        rw [hconf] at hc0
        cases hc0
      · rename_i param0 hc0
        rw [hconf] at hc0
        injection hc0 with hc0
        subst hc0
        split at h
        · cases h
        · rename_i beans hscan
          exact ⟨beans, hscan, fun x hx =>
            scanConfigurations_mem_acc rest _ c' h x
              (List.mem_append_right acc hx)⟩
    · split at h
      · exact ih acc c' h bd hmem2 param hconf
      · rename_i param0 hc0
        split at h
        · cases h
        · rename_i beans hscan
          exact ih _ c' h bd hmem2 param hconf

theorem scanConfiguration_registers {w : World} {bd : Bean}
    {param : Configuration} {ds : List Bean}
    (h : scanConfiguration w bd param = .ok ds)
    {incs excs : List (String → Bool)}
    (hinc : compilePatterns w
      (if param.Includes.isEmpty then ["New.*"] else param.Includes) =
      .ok incs)
    (hexc : compilePatterns w param.Excludes = .ok excs)
    {m : MethodInfo} (hm : m ∈ w.methodsOf bd.typ)
    (hex : excs.any (fun p => p m.mname) = false)
    (hin : incs.any (fun p => p m.mname) = true) :
    methodBean bd m ∈ ds := by
  unfold scanConfiguration at h
  rw [hinc, hexc] at h
  dsimp only at h
  injection h with h
  rw [← h]
  refine List.mem_filterMap.mpr ⟨m, hm, ?_⟩
  simp [hex, hin]

/-- C5 (amended): for every configuration-class bean, each method whose name
matches an include pattern (defaulting to `New.*` when none are given) and no
exclude pattern is registered as an additional bean named
`{parentName}_{MethodName}` carrying an `OnBeanID` condition on the parent
bean's identity; and in the refreshed container every `StatusResolved` bean
carrying an `OnBeanID t n` condition certifies a live (at least resolved)
bean matched by `(t, n)`.  Hence when every bean matched by the parent's
identity — the parent, and any other bean sharing its (type, name) identity —
ends `StatusDeleted`, the derived bean ends `StatusDeleted` as well.  The
unqualified claim ("whenever the parent bean ends up Deleted the derived
bean ends up Deleted") is refuted by the counterexample below: a live twin
sharing the deleted parent's identity keeps the derived bean's condition
true. -/
theorem configuration_scan_registration_and_deletion
    (w : World) (modules : List GsModule) (initBeans : List PBean)
    (r r' : Resolving)
    (hdef : ∀ b ∈ r.beans, b.status = .StatusDefault)
    (h : Refresh w modules initBeans r = (r', .ok ())) :
    ∃ c1 c2,
      applyModules modules (initBeans.map PBean.toBean ++ r.beans) = .ok c1 ∧
      scanConfigurations w c1 c1 = .ok c2 ∧
      (∀ bd ∈ c1, ∀ param, bd.configuration = some param →
        ∃ ds, scanConfiguration w bd param = .ok ds ∧
          (∀ x ∈ ds, x ∈ c2) ∧
          ∀ incs excs,
            compilePatterns w (if param.Includes.isEmpty then ["New.*"]
              else param.Includes) = .ok incs →
            compilePatterns w param.Excludes = .ok excs →
            ∀ m ∈ w.methodsOf bd.typ,
              excs.any (fun p => p m.mname) = false →
              incs.any (fun p => p m.mname) = true →
              methodBean bd m ∈ c2 ∧
              (methodBean bd m).name = bd.name ++ "_" ++ m.mname ∧
              Cond.onBeanID (some bd.typ) bd.name ∈ (methodBean bd m).conds) ∧
      (∀ j, shapeAt r'.beans j = shapeAt c2 j) ∧
      (∀ i b t n, r'.beans.get? i = some b →
        Cond.onBeanID t n ∈ b.conds →
        (∀ j b', r'.beans.get? j = some b' → isBeanMatched t n b' = true →
          b'.status = .StatusDeleted) →
        b.status = .StatusDeleted) := by
  unfold Refresh at h
  split at h
  · injection h with h1 h2
    cases h2
  · have hall0 : ∀ b ∈ initBeans.map PBean.toBean ++ r.beans,
        b.status = .StatusDefault := by
      intro b hb
      rcases List.mem_append.mp hb with hb | hb
      · rcases List.mem_map.mp hb with ⟨p, _, rfl⟩
        rfl
      · exact hdef b hb
    have hnr0 : NoResolving (initBeans.map PBean.toBean ++ r.beans) := by
      intro j hj
      rcases statusAt_some_get hj with ⟨b, hget, hbs⟩
      rw [hall0 b (List.get?_mem hget)] at hbs
      cases hbs
    have hgr0 : GoodRange (initBeans.map PBean.toBean ++ r.beans) := by
      intro j b hget
      exact Or.inl (hall0 b (List.get?_mem hget))
    have hcert0 : ResCert (initBeans.map PBean.toBean ++ r.beans) := by
      intro i b t n hget hmem hres
      rw [hall0 b (List.get?_mem hget)] at hres
      cases hres
    split at h
    · injection h with h1 h2; cases h2
    · rename_i c1 hmods
      rcases applyModules_good _ _ _ hmods hnr0 hgr0 with ⟨hnr1, hgr1⟩
      have hcert1 : ResCert c1 := applyModules_resCert _ _ _ hmods hcert0
      split at h
      · injection h with h1 h2; cases h2
      · rename_i c2 hscan
        rcases scanConfigurations_good _ _ _ hscan hnr1 hgr1 with ⟨hnr2, hgr2⟩
        have hcert2 : ResCert c2 :=
          scanConfigurations_resCert _ _ _ hscan hcert1
        split at h
        · injection h with h1 h2; cases h2
        · injection h with h1 h2; cases h2
        · rename_i c3 hres
          split at h
          · injection h with h1 h2; cases h2
          · injection h with h1 h2
            have hbeans : r'.beans = c3 := by rw [← h1]
            have hcert3 : ResCert c3 :=
              resolveBeansAux_resCert _ _ _ hres hcert2
            rcases resolveBeansAux_transport _ _ _ hres with
              ⟨hlen3, hshape3, _⟩
            rcases resolveBeansAux_final _ _ _ hres hnr2 hgr2 with
              ⟨_, _, _, _, hall3⟩
            refine ⟨c1, c2, hmods, hscan, ?_, ?_, ?_⟩
            · intro bd hbd param hconf
              rcases scanConfigurations_child_ok c1 c1 c2 hscan bd hbd param
                hconf with ⟨ds, hds, hsub⟩
              refine ⟨ds, hds, hsub, ?_⟩
              intro incs excs hinc hexc m hm hex hin
              refine ⟨hsub _ (scanConfiguration_registers hds hinc hexc hm
                hex hin), rfl, ?_⟩
              simp [methodBean]
            · intro j
              rw [hbeans]
              exact hshape3 j
            · intro i b t n hget hmem hdel
              rw [hbeans] at hget
              have hlt3 : i < c3.length := by
                rcases List.get?_eq_some.mp hget with ⟨hl, _⟩
                exact hl
              have hlt2 : i < c2.length := by
                rw [← hlen3]
                exact hlt3
              have hfin : FinalOK c3 i :=
                hall3 i (List.mem_range.mpr hlt2) hlt2
              rcases hfin with hf | hf
              · exfalso
                have hbres : b.status = .StatusResolved := by
                  rw [statusAt_eq, hget] at hf
                  simpa using hf
                rcases hcert3 i b t n hget hmem hbres with
                  ⟨j, b', hget', hmat, hge⟩
                have hdel' : b'.status = .StatusDeleted :=
                  hdel j b' (by rw [hbeans]; exact hget') hmat
                rw [hdel'] at hge
                exact absurd hge (by decide)
              · rw [statusAt_eq, hget] at hf
                simpa using hf

/-- C5 counterexample: a configuration parent bean whose own condition is
false is deleted, while a live twin bean shares its (type, name) identity.
The scanned method bean `cfg_NewOrder` — precisely `methodBean` of the
parent, conditioned on the parent's identity — ends `StatusResolved`, not
`StatusDeleted`, and `Refresh` succeeds: the parent ends Deleted but the
derived bean does not. -/
theorem configuration_scan_counterexample :
    Refresh wC5 [] [pbParentC5, pbTwinC5]
        { state := .RefreshDefault, beans := [] } =
      ({ state := .Refreshed
         beans := [
           { name := "cfg", typ := 10, exports := []
             conds := [.res "disabled" (.ok false)]
             status := .StatusDeleted
             configuration := some { Includes := [], Excludes := [] }
             fileLine := "cfg.go:1" },
           { name := "cfg", typ := 10, exports := [], conds := []
             status := .StatusResolved, configuration := none
             fileLine := "twin.go:1" },
           { name := "cfg_NewOrder", typ := 20, exports := []
             conds := [.onBeanID (some 10) "cfg", .onBeanID (some 10) "cfg"]
             status := .StatusResolved, configuration := none
             fileLine := "cfg.go:5" }] }, .ok ()) ∧
    methodBean (PBean.toBean pbParentC5)
        { mname := "NewOrder", retTy := 20, mfileLine := "cfg.go:5" } =
      { name := "cfg_NewOrder", typ := 20, exports := []
        conds := [.onBeanID (some 10) "cfg", .onBeanID (some 10) "cfg"]
        status := .StatusDefault, configuration := none
        fileLine := "cfg.go:5" } :=
  ⟨rfl, rfl⟩

/-- Witness for C5 at a concrete run without a twin: the refresh succeeds,
the scan registered the derived bean, and — via the theorem's deletion part —
the derived bean, all of whose identity matchers ended deleted, is itself
deleted. -/
theorem configuration_scan_registration_and_deletion_witness :
    (∃ c1 c2,
      applyModules [] ([pbParentC5].map PBean.toBean ++ ([] : Ctr)) =
        .ok c1 ∧
      scanConfigurations wC5 c1 c1 = .ok c2) ∧
    ({ name := "cfg_NewOrder", typ := 20, exports := []
       conds := [.onBeanID (some 10) "cfg", .onBeanID (some 10) "cfg"]
       status := .StatusDeleted, configuration := none
       fileLine := "cfg.go:5" } : Bean).status = .StatusDeleted := by
  obtain ⟨c1, c2, h1, h2, _, _, hdel⟩ :=
    configuration_scan_registration_and_deletion wC5 [] [pbParentC5]
      { state := .RefreshDefault, beans := [] }
      { state := .Refreshed
        beans := [
          { name := "cfg", typ := 10, exports := []
            conds := [.res "disabled" (.ok false)]
            status := .StatusDeleted
            configuration := some { Includes := [], Excludes := [] }
            fileLine := "cfg.go:1" },
          { name := "cfg_NewOrder", typ := 20, exports := []
            conds := [.onBeanID (some 10) "cfg", .onBeanID (some 10) "cfg"]
            status := .StatusDeleted, configuration := none
            fileLine := "cfg.go:5" }] }
      (fun b hb => absurd hb (List.not_mem_nil b))
      rfl
  refine ⟨⟨c1, c2, h1, h2⟩, ?_⟩
  refine hdel 1 _ (some 10) "cfg" rfl (by decide) ?_
  intro j b' hget hmat
  rcases j with _ | _ | j
  · injection hget with hg
    rw [← hg]
  · injection hget with hg
    rw [← hg] at hmat
    exact absurd hmat (by decide)
  · exact Option.noConfusion hget


/-! ### Claim C9: the server readiness barrier -/

theorem countP_congr_on {p q : Nat → Bool} :
    ∀ l : List Nat, (∀ a ∈ l, q a = p a) → l.countP q = l.countP p := by
  intro l
  induction l with
  | nil => intro _; rfl
  | cons a t ih =>
    intro hh
    rw [List.countP_cons, List.countP_cons, hh a (List.mem_cons_self a t),
      ih (fun b hb => hh b (List.mem_cons_of_mem a hb))]

theorem countP_flip {p q : Nat → Bool} :
    ∀ l : List Nat, l.Nodup → ∀ k : Nat, k ∈ l →
      (∀ a ∈ l, a ≠ k → q a = p a) →
      l.countP q + (if p k = true then 1 else 0) =
        l.countP p + (if q k = true then 1 else 0) := by
  intro l
  induction l with
  | nil => intro _ k hk; cases hk
  | cons a t ih =>
    intro hnd k hk hother
    rw [List.countP_cons, List.countP_cons]
    rcases List.mem_cons.mp hk with heq | hkt
    · subst heq
      have hnt : k ∉ t := (List.nodup_cons.mp hnd).1
      have hcp : t.countP q = t.countP p :=
        countP_congr_on t (fun b hb =>
          hother b (List.mem_cons_of_mem k hb) (fun hbk => hnt (hbk ▸ hb)))
      rw [hcp, Nat.add_right_comm]
    · have hak : a ≠ k := fun hh => (List.nodup_cons.mp hnd).1 (hh ▸ hkt)
      have hqa : q a = p a := hother a (List.mem_cons_self a t) hak
      have hih := ih (List.nodup_cons.mp hnd).2 k hkt
        (fun b hb hbk => hother b (List.mem_cons_of_mem a hb) hbk)
      rw [hqa, Nat.add_right_comm, hih, Nat.add_right_comm]

theorem spCount_set (l : List ServerPC) (k : Nat) (a b : ServerPC)
    (h : l.get? k = some a) :
    spCount (l.set k b) + sp1 a = spCount l + sp1 b := by
  have hk : k < l.length := by
    rcases List.get?_eq_some.mp h with ⟨hl, _⟩
    exact hl
  have hmem : k ∈ List.range l.length := List.mem_range.mpr hk
  have hother : ∀ x ∈ List.range l.length, x ≠ k →
      ((l.set k b).get? x == some ServerPC.spawned) =
        (l.get? x == some ServerPC.spawned) := by
    intro x _ hxk
    rw [List.get?_set_ne _ _ (fun hh => hxk hh.symm)]
  have hflip := @countP_flip
    (fun i => l.get? i == some ServerPC.spawned)
    (fun i => (l.set k b).get? i == some ServerPC.spawned)
    (List.range l.length) (List.nodup_range _) k hmem hother
  dsimp only at hflip
  rw [h] at hflip
  rw [List.get?_set_eq_of_lt _ hk] at hflip
  simp only [beq_iff_eq, Option.some.injEq] at hflip
  have hsa : (if a = ServerPC.spawned then 1 else 0) = sp1 a := by
    cases a <;> rfl
  have hsb : (if b = ServerPC.spawned then 1 else 0) = sp1 b := by
    cases b <;> rfl
  rw [hsa, hsb] at hflip
  unfold spCount
  rw [List.length_set]
  exact hflip

theorem spCount_pos {l : List ServerPC} {i : Nat}
    (h : l.get? i = some .spawned) : 0 < spCount l := by
  unfold spCount
  refine List.countP_pos.mpr ⟨i, ?_, ?_⟩
  · rcases List.get?_eq_some.mp h with ⟨hl, _⟩
    exact List.mem_range.mpr hl
  · show (l.get? i == some ServerPC.spawned) = true
    rw [h]
    rfl

theorem serverAt_set {l : List ServerPC} {k i : Nat} {a pc : ServerPC}
    (h : (l.set k a).get? i = some pc) :
    (i = k ∧ pc = a) ∨ (i ≠ k ∧ l.get? i = some pc) := by
  by_cases hik : i = k
  · subst hik
    left
    refine ⟨rfl, ?_⟩
    have hi : i < l.length := by
      rcases List.get?_eq_some.mp h with ⟨hlt, _⟩
      rw [List.length_set] at hlt
      exact hlt
    rw [List.get?_set_eq_of_lt _ hi] at h
    exact (Option.some.inj h).symm
  · right
    refine ⟨hik, ?_⟩
    rw [List.get?_set_ne _ _ (fun hh => hik hh.symm)] at h
    exact h

theorem barrierInit_inv (n : Nat) : BarrierInv (barrierInit n) := by
  refine ⟨?_, ?_, ?_, ?_, ?_, ?_, ?_, ?_, ?_⟩
  · show 0 = spCount (List.replicate n ServerPC.notLaunched)
    unfold spCount
    symm
    refine List.countP_eq_zero.mpr ?_
    intro a _
    cases hg : (List.replicate n ServerPC.notLaunched).get? a with
    | none => simp [hg]
    | some pc =>
      have hpc : pc = ServerPC.notLaunched :=
        List.eq_of_mem_replicate (List.get?_mem hg)
      subst hpc
      simp [hg]
  · intro h
    simp [barrierInit] at h
  · intro h
    simp [barrierInit] at h
  · intro k hk i hi pc hg
    have h0 : (0 : Nat) = k := by injection hk
    exact absurd hi (by omega)
  · intro hp i pc hg
    rcases hp with h | h | ⟨r, h⟩ <;> simp [barrierInit] at h
  · intro e he
    simp [barrierInit] at he
  · intro hp
    rcases hp with h | h <;> simp [barrierInit] at h
  · intro _
    rfl
  · intro i h
    exfalso
    have hpc : ServerPC.released = ServerPC.notLaunched :=
      List.eq_of_mem_replicate (List.get?_mem h)
    exact ServerPC.noConfusion hpc

theorem barrierInv_step {s s' : BarrierState} (hstep : BarrierStep s s')
    (hinv : BarrierInv s) : BarrierInv s' := by
  cases hstep with
  | launch k hm hs =>
    refine ⟨?_, ?_, ?_, ?_, ?_, ?_, ?_, ?_, ?_⟩
    · show s.counter + 1 = spCount (s.servers.set k ServerPC.spawned)
      have hset := spCount_set s.servers k ServerPC.notLaunched
        ServerPC.spawned hs
      rw [show sp1 ServerPC.notLaunched = 0 from rfl,
        show sp1 ServerPC.spawned = 1 from rfl] at hset
      have hce := hinv.counterEq
      omega
    · intro h
      exfalso
      rcases hinv.closedMain h with h' | h' <;> rw [hm] at h' <;>
        exact MainPC.noConfusion h'
    · intro h
      exfalso
      rcases hinv.closedMain h with h' | h' <;> rw [hm] at h' <;>
        exact MainPC.noConfusion h'
    · intro k' hk' i hi pc hg
      have hkk : k + 1 = k' := by injection hk'
      subst hkk
      rcases serverAt_set hg with ⟨rfl, rfl⟩ | ⟨hik, hg'⟩
      · exact fun hh => ServerPC.noConfusion hh
      · have hik2 : i < k := by omega
        exact hinv.launchProgress k hm i hik2 pc hg'
    · intro hp
      exfalso
      rcases hp with h | h | ⟨r, h⟩ <;> exact MainPC.noConfusion h
    · intro e he
      exact MainPC.noConfusion he
    · intro hp
      rcases hp with h | h <;> exact MainPC.noConfusion h
    · intro hp
      rcases hp with h | ⟨r, h⟩ <;> exact MainPC.noConfusion h
    · intro i hrel
      rcases serverAt_set hrel with ⟨rfl, heq⟩ | ⟨hik, hg'⟩
      · exact ServerPC.noConfusion heq
      · exact hinv.releasedClosed i hg'
  | mainWait hm =>
    refine ⟨hinv.counterEq, hinv.closedNoIntercept, ?_, ?_, ?_, ?_, ?_, ?_,
      hinv.releasedClosed⟩
    · intro h
      exfalso
      rcases hinv.closedMain h with h' | h' <;> rw [hm] at h' <;>
        exact MainPC.noConfusion h'
    · intro k hk i hi pc hg
      exact MainPC.noConfusion hk
    · intro _ i pc hg
      have hi : i < s.servers.length := by
        rcases List.get?_eq_some.mp hg with ⟨hl, _⟩
        exact hl
      exact hinv.launchProgress s.servers.length hm i hi pc hg
    · intro e he
      exact MainPC.noConfusion he
    · intro hp
      rcases hp with h | h <;> exact MainPC.noConfusion h
    · intro hp
      rcases hp with h | ⟨r, h⟩ <;> exact MainPC.noConfusion h
  | trigger i hs =>
    refine ⟨?_, ?_, ?_, ?_, ?_, ?_, ?_, ?_, ?_⟩
    · show s.counter - 1 = spCount (s.servers.set i ServerPC.gateWaiting)
      have hset := spCount_set s.servers i ServerPC.spawned
        ServerPC.gateWaiting hs
      rw [show sp1 ServerPC.spawned = 1 from rfl,
        show sp1 ServerPC.gateWaiting = 0 from rfl] at hset
      have hce := hinv.counterEq
      have hpos := spCount_pos hs
      omega
    · intro h
      exfalso
      have h0 := (hinv.closedNoIntercept h).2
      have hce := hinv.counterEq
      have hpos := spCount_pos hs
      omega
    · intro h
      exact hinv.closedMain h
    · intro k hk i' hi' pc hg
      rcases serverAt_set hg with ⟨rfl, rfl⟩ | ⟨hik, hg'⟩
      · exact fun hh => ServerPC.noConfusion hh
      · exact hinv.launchProgress k hk i' hi' pc hg'
    · intro hp i' pc hg
      rcases serverAt_set hg with ⟨rfl, rfl⟩ | ⟨hik, hg'⟩
      · exact fun hh => ServerPC.noConfusion hh
      · exact hinv.launched hp i' pc hg'
    · intro e he
      exact hinv.returnedErr e he
    · intro hp
      exact hinv.successPath hp
    · intro hp
      exfalso
      have h0 := hinv.donePath hp
      have hce := hinv.counterEq
      have hpos := spCount_pos hs
      omega
    · intro i' hrel
      rcases serverAt_set hrel with ⟨rfl, heq⟩ | ⟨hik, hg'⟩
      · exact ServerPC.noConfusion heq
      · exact hinv.releasedClosed i' hg'
  | intercept i hs =>
    refine ⟨?_, ?_, ?_, ?_, ?_, ?_, ?_, ?_, ?_⟩
    · show s.counter - 1 = spCount (s.servers.set i ServerPC.interceptedExit)
      have hset := spCount_set s.servers i ServerPC.spawned
        ServerPC.interceptedExit hs
      rw [show sp1 ServerPC.spawned = 1 from rfl,
        show sp1 ServerPC.interceptedExit = 0 from rfl] at hset
      have hce := hinv.counterEq
      have hpos := spCount_pos hs
      omega
    · intro h
      exfalso
      have h0 := (hinv.closedNoIntercept h).2
      have hce := hinv.counterEq
      have hpos := spCount_pos hs
      omega
    · intro h
      exact hinv.closedMain h
    · intro k hk i' hi' pc hg
      rcases serverAt_set hg with ⟨rfl, rfl⟩ | ⟨hik, hg'⟩
      · exact fun hh => ServerPC.noConfusion hh
      · exact hinv.launchProgress k hk i' hi' pc hg'
    · intro hp i' pc hg
      rcases serverAt_set hg with ⟨rfl, rfl⟩ | ⟨hik, hg'⟩
      · exact fun hh => ServerPC.noConfusion hh
      · exact hinv.launched hp i' pc hg'
    · intro e he
      have h6 := hinv.returnedErr e he
      exact ⟨h6.1, rfl, h6.2.2⟩
    · intro hp
      exfalso
      have hcc := (hinv.successPath hp).2
      have h0 := (hinv.closedNoIntercept hcc).2
      have hce := hinv.counterEq
      have hpos := spCount_pos hs
      omega
    · intro hp
      exfalso
      have h0 := hinv.donePath hp
      have hce := hinv.counterEq
      have hpos := spCount_pos hs
      omega
    · intro i' hrel
      rcases serverAt_set hrel with ⟨rfl, heq⟩ | ⟨hik, hg'⟩
      · exact ServerPC.noConfusion heq
      · exact hinv.releasedClosed i' hg'
  | mainErr hm hc hi =>
    refine ⟨hinv.counterEq, ?_, ?_, ?_, ?_, ?_, ?_, ?_,
      hinv.releasedClosed⟩
    · intro h
      exfalso
      have hif := (hinv.closedNoIntercept h).1
      rw [hif] at hi
      exact Bool.noConfusion hi
    · intro h
      exfalso
      have hif := (hinv.closedNoIntercept h).1
      rw [hif] at hi
      exact Bool.noConfusion hi
    · intro k hk
      exact MainPC.noConfusion hk
    · intro _ i pc hg
      exact hinv.launched (Or.inl hm) i pc hg
    · intro e he
      have hccf : s.chClosed = false := by
        cases hcc : s.chClosed
        · rfl
        · exfalso
          have hif := (hinv.closedNoIntercept hcc).1
          rw [hif] at hi
          exact Bool.noConfusion hi
      have he' : MainPC.returned (some "server intercepted") =
          MainPC.returned (some e) := he
      have h1 : some "server intercepted" = some e := by injection he'
      have h2 : "server intercepted" = e := by injection h1
      exact ⟨h2.symm, hi, hccf⟩
    · intro hp
      rcases hp with h | h
      · exact MainPC.noConfusion h
      · have h' : MainPC.returned (some "server intercepted") =
            MainPC.returned none := h
        have h1 : (some "server intercepted" : Option String) = none := by
          injection h'
        exact Option.noConfusion h1
    · intro _
      exact hc
  | mainClose hm hc hi =>
    refine ⟨hinv.counterEq, ?_, ?_, ?_, ?_, ?_, ?_, ?_, ?_⟩
    · intro _
      exact ⟨hi, hc⟩
    · intro _
      exact Or.inl rfl
    · intro k hk
      exact MainPC.noConfusion hk
    · intro _ i pc hg
      exact hinv.launched (Or.inl hm) i pc hg
    · intro e he
      exact MainPC.noConfusion he
    · intro _
      exact ⟨hi, rfl⟩
    · intro _
      exact hc
    · intro i _
      rfl
  | mainOk hm =>
    refine ⟨hinv.counterEq, hinv.closedNoIntercept, ?_, ?_, ?_, ?_, ?_, ?_,
      hinv.releasedClosed⟩
    · intro h
      exact Or.inr rfl
    · intro k hk
      exact MainPC.noConfusion hk
    · intro _ i pc hg
      exact hinv.launched (Or.inr (Or.inl hm)) i pc hg
    · intro e he
      have h' : MainPC.returned none = MainPC.returned (some e) := he
      have h1 : (none : Option String) = some e := by injection h'
      exact Option.noConfusion h1
    · intro _
      exact hinv.successPath (Or.inl hm)
    · intro _
      exact hinv.donePath (Or.inl hm)
  | release i hs hc =>
    refine ⟨?_, ?_, ?_, ?_, ?_, ?_, ?_, ?_, ?_⟩
    · show s.counter = spCount (s.servers.set i ServerPC.released)
      have hset := spCount_set s.servers i ServerPC.gateWaiting
        ServerPC.released hs
      rw [show sp1 ServerPC.gateWaiting = 0 from rfl,
        show sp1 ServerPC.released = 0 from rfl] at hset
      have hce := hinv.counterEq
      omega
    · intro h
      exact hinv.closedNoIntercept h
    · intro h
      exact hinv.closedMain h
    · intro k hk i' hi' pc hg
      rcases serverAt_set hg with ⟨rfl, rfl⟩ | ⟨hik, hg'⟩
      · exact fun hh => ServerPC.noConfusion hh
      · exact hinv.launchProgress k hk i' hi' pc hg'
    · intro hp i' pc hg
      rcases serverAt_set hg with ⟨rfl, rfl⟩ | ⟨hik, hg'⟩
      · exact fun hh => ServerPC.noConfusion hh
      · exact hinv.launched hp i' pc hg'
    · intro e he
      exact hinv.returnedErr e he
    · intro hp
      exact hinv.successPath hp
    · intro hp
      exact hinv.donePath hp
    · intro i' _
      exact hc

theorem barrierReach_inv {n : Nat} {s : BarrierState}
    (h : BarrierReach n s) : BarrierInv s := by
  unfold BarrierReach at h
  induction h with
  | refl => exact barrierInit_inv n
  | tail hr hstep ih => exact barrierInv_step hstep ih
theorem intercepted_forever {s s' : BarrierState}
    (h : Relation.ReflTransGen BarrierStep s s')
    (hi : s.intercepted = true) (hc : s.chClosed = false) :
    s'.intercepted = true ∧ s'.chClosed = false := by
  induction h with
  | refl => exact ⟨hi, hc⟩
  | tail hr hstep ih =>
    obtain ⟨ih1, ih2⟩ := ih
    cases hstep with
    | launch k hm hs => exact ⟨ih1, ih2⟩
    | mainWait hm => exact ⟨ih1, ih2⟩
    | trigger i hs => exact ⟨ih1, ih2⟩
    | intercept i hs => exact ⟨rfl, ih2⟩
    | mainErr hm hc2 hi2 => exact ⟨ih1, ih2⟩
    | mainClose hm hc2 hi2 =>
      rw [ih1] at hi2
      exact Bool.noConfusion hi2
    | mainOk hm => exact ⟨ih1, ih2⟩
    | release i hs hcc =>
      rw [ih2] at hcc
      exact Bool.noConfusion hcc

theorem intercepted_stuck {s s' : BarrierState}
    (h : Relation.ReflTransGen BarrierStep s s')
    (hi : s.intercepted = true) (hc : s.chClosed = false)
    (hg : s.servers.get? 0 = some .gateWaiting) :
    s'.intercepted = true ∧ s'.chClosed = false ∧
      s'.servers.get? 0 = some .gateWaiting := by
  induction h with
  | refl => exact ⟨hi, hc, hg⟩
  | tail hr hstep ih =>
    obtain ⟨ih1, ih2, ih3⟩ := ih
    cases hstep with
    | launch k hm hs =>
      refine ⟨ih1, ih2, ?_⟩
      have hk0 : k ≠ 0 := by
        rintro rfl
        rw [ih3] at hs
        exact ServerPC.noConfusion (Option.some.inj hs)
      rw [List.get?_set_ne _ _ hk0]
      exact ih3
    | mainWait hm => exact ⟨ih1, ih2, ih3⟩
    | trigger i hs =>
      refine ⟨ih1, ih2, ?_⟩
      have hk0 : i ≠ 0 := by
        rintro rfl
        rw [ih3] at hs
        exact ServerPC.noConfusion (Option.some.inj hs)
      rw [List.get?_set_ne _ _ hk0]
      exact ih3
    | intercept i hs =>
      refine ⟨rfl, ih2, ?_⟩
      have hk0 : i ≠ 0 := by
        rintro rfl
        rw [ih3] at hs
        exact ServerPC.noConfusion (Option.some.inj hs)
      rw [List.get?_set_ne _ _ hk0]
      exact ih3
    | mainErr hm hc2 hi2 => exact ⟨ih1, ih2, ih3⟩
    | mainClose hm hc2 hi2 =>
      rw [ih1] at hi2
      exact Bool.noConfusion hi2
    | mainOk hm => exact ⟨ih1, ih2, ih3⟩
    | release i hs hcc =>
      rw [ih2] at hcc
      exact Bool.noConfusion hcc

theorem c9State_reachable : BarrierReach 2 c9State := by
  unfold BarrierReach
  have h1 : BarrierStep (barrierInit 2)
      { counter := 1, intercepted := false, chClosed := false
        main := .launching 1, servers := [.spawned, .notLaunched] } :=
    BarrierStep.launch _ 0 rfl rfl
  have h2 : BarrierStep
      { counter := 1, intercepted := false, chClosed := false
        main := .launching 1, servers := [.spawned, .notLaunched] }
      { counter := 2, intercepted := false, chClosed := false
        main := .launching 2, servers := [.spawned, .spawned] } :=
    BarrierStep.launch _ 1 rfl rfl
  have h3 : BarrierStep
      { counter := 2, intercepted := false, chClosed := false
        main := .launching 2, servers := [.spawned, .spawned] }
      { counter := 2, intercepted := false, chClosed := false
        main := .waitingBarrier, servers := [.spawned, .spawned] } :=
    BarrierStep.mainWait _ rfl
  have h4 : BarrierStep
      { counter := 2, intercepted := false, chClosed := false
        main := .waitingBarrier, servers := [.spawned, .spawned] }
      { counter := 1, intercepted := false, chClosed := false
        main := .waitingBarrier, servers := [.gateWaiting, .spawned] } :=
    BarrierStep.trigger _ 0 rfl
  have h5 : BarrierStep
      { counter := 1, intercepted := false, chClosed := false
        main := .waitingBarrier, servers := [.gateWaiting, .spawned] }
      { counter := 0, intercepted := true, chClosed := false
        main := .waitingBarrier
        servers := [.gateWaiting, .interceptedExit] } :=
    BarrierStep.intercept _ 1 rfl
  have h6 : BarrierStep
      { counter := 0, intercepted := true, chClosed := false
        main := .waitingBarrier
        servers := [.gateWaiting, .interceptedExit] } c9State :=
    BarrierStep.mainErr _ rfl rfl rfl
  exact (((((Relation.ReflTransGen.refl.tail h1).tail h2).tail h3).tail
    h4).tail h5).tail h6

/-- C9 (amended): invariants of the readiness barrier.  The WaitGroup
counter always equals the number of launched servers that have not yet
decremented it.  When `Start` takes the success path (the gate is closed or
nil is returned) no interception happened and the gate has been closed; a
server is released only by the closed gate.  When `Wait` has returned (the
main goroutine is past `waitingBarrier`) the counter is zero and every
registered server has decremented it — each is blocked on the gate, exited
through `Intercept`, or released.  When `Start` returns an error it is
exactly "server intercepted", an interception happened, and the gate is not
closed then nor in any later reachable state: waiting servers are NOT
released on the interception path. -/
theorem readiness_barrier_release_and_interception (n : Nat)
    (s : BarrierState) (h : BarrierReach n s) :
    s.counter = spawnedCount s ∧
    ((s.main = .closedGate ∨ s.main = .returned none) →
      s.intercepted = false ∧ s.chClosed = true) ∧
    (∀ i, s.servers.get? i = some .released → s.chClosed = true) ∧
    ((s.main = .closedGate ∨ ∃ r, s.main = .returned r) →
      s.counter = 0 ∧ ∀ i pc, s.servers.get? i = some pc →
        pc = .gateWaiting ∨ pc = .interceptedExit ∨ pc = .released) ∧
    (∀ e, s.main = .returned (some e) →
      e = "server intercepted" ∧ s.intercepted = true ∧
      ∀ s', Relation.ReflTransGen BarrierStep s s' →
        s'.chClosed = false) := by
  have hinv := barrierReach_inv h
  refine ⟨hinv.counterEq, hinv.successPath, hinv.releasedClosed, ?_, ?_⟩
  · intro hp
    refine ⟨hinv.donePath hp, ?_⟩
    intro i pc hget
    have hp' : s.main = .waitingBarrier ∨ s.main = .closedGate ∨
        ∃ r, s.main = .returned r := by
      rcases hp with h' | h'
      · exact Or.inr (Or.inl h')
      · exact Or.inr (Or.inr h')
    have hnl : pc ≠ .notLaunched := hinv.launched hp' i pc hget
    have hns : pc ≠ .spawned := by
      rintro rfl
      have hpos := spCount_pos hget
      have h0 := hinv.donePath hp
      have hce := hinv.counterEq
      omega
    cases pc with
    | notLaunched => exact absurd rfl hnl
    | spawned => exact absurd rfl hns
    | gateWaiting => exact Or.inl rfl
    | released => exact Or.inr (Or.inr rfl)
    | interceptedExit => exact Or.inr (Or.inl rfl)
  · intro e he
    have h6 := hinv.returnedErr e he
    refine ⟨h6.1, h6.2.1, ?_⟩
    intro s' hs'
    exact (intercepted_forever hs' h6.2.1 h6.2.2).2

/-- Witness for C9 at the concrete two-server interception run. -/
theorem readiness_barrier_release_and_interception_witness :
    BarrierReach 2 c9State ∧ c9State.counter = spawnedCount c9State :=
  ⟨c9State_reachable,
    (readiness_barrier_release_and_interception 2 c9State
      c9State_reachable).1⟩

/-- Counterexample to C9 as stated: in a reachable two-server run where
one server waits on the gate and the other intercepts, the counter reaches
zero and `Start` returns the "server intercepted" error, but the waiting
server is never released — the gate is never closed on the interception
path, so the release is not "simultaneous with the counter reaching zero",
it never happens at all. -/
theorem interception_never_releases_counterexample :
    BarrierReach 2 c9State ∧
    c9State.main = .returned (some "server intercepted") ∧
    c9State.counter = 0 ∧
    c9State.servers.get? 0 = some .gateWaiting ∧
    c9State.chClosed = false ∧
    ∀ s', Relation.ReflTransGen BarrierStep c9State s' →
      s'.servers.get? 0 ≠ some .released := by
  refine ⟨c9State_reachable, rfl, rfl, rfl, rfl, ?_⟩
  intro s' h hrel
  have h3 := (intercepted_stuck h rfl rfl rfl).2.2
  rw [h3] at hrel
  exact ServerPC.noConfusion (Option.some.inj hrel)
end SpringCore
